import Mathlib

/-!
Verification development for the appliance-survey extraction pipeline.

This file gives a shallow embedding, in Lean, of the pure core of the
repository: the JSON repair pipeline and extractor
(`utils/json_extractor.py`), the Pydantic appliance model and validation
(`models/appliance.py`, `services/validation_service.py`), the schedule
analyzer (`services/context_service.py`), the duplicate/update
reconciliation against the persisted record list (`database/queries.py`,
`main.py`), and the conversation normalizer (`main.py`).

Strings are modelled as `List Char`; Python `re` operations are embedded
as the specific scanning functions the patterns denote (each definition
carries a comment naming the regex it embeds).  Machine integers are
`Int`/`Nat` (Python ints are unbounded, so no wrap-around modelling is
needed).  Fallible code returns `Option`/`Except`.
-/

set_option maxRecDepth 10000

namespace SurveyPipeline

/-! ## Character and string utilities -/

/-- The opening brace character (written via its code point). -/
def lbrace : Char := Char.ofNat 123

/-- The closing brace character (written via its code point). -/
def rbrace : Char := Char.ofNat 125

/-- The single-quote character (written via its code point). -/
def squote : Char := Char.ofNat 39

/-- The double-quote character. -/
def dquote : Char := '"'

/-- Whitespace as recognised by Python `str.strip` and the `\s` class
(ASCII subset: space, tab, newline, carriage return, vertical tab, form feed). -/
def wsChar (c : Char) : Bool :=
  c = ' ' || c = '\t' || c = '\n' || c = '\r' || c = Char.ofNat 11 || c = Char.ofNat 12

/-- ASCII decimal digit test (Python `str.isdigit` on the inputs considered here). -/
def digitChar (c : Char) : Bool := '0' ≤ c && c ≤ '9'

/-- Word character for the `\b` boundary of Python `re`: ASCII letters, digits, underscore. -/
def wordChar (c : Char) : Bool :=
  ('a' ≤ c && c ≤ 'z') || ('A' ≤ c && c ≤ 'Z') || digitChar c || c = '_'

/-- Python `str.strip`: drop leading and trailing whitespace. -/
def pyStrip (cs : List Char) : List Char :=
  ((cs.dropWhile wsChar).reverse.dropWhile wsChar).reverse

/-- Does `cs` start with the pattern `p`? -/
def startsWithL : List Char → List Char → Bool
  | [], _ => true
  | _ :: _, [] => false
  | p :: ps, c :: cs => p = c && startsWithL ps cs

/-- Does `cs` end with the pattern `p`? -/
def endsWithL (p cs : List Char) : Bool := startsWithL p.reverse cs.reverse

/-- Lowercase an ASCII character (SQL `LOWER` / Python `str.lower` on ASCII). -/
def lowerChar (c : Char) : Char :=
  if 'A' ≤ c && c ≤ 'Z' then Char.ofNat (c.toNat + 32) else c

theorem length_dropWhile_le_self (p : Char → Bool) (l : List Char) :
    (l.dropWhile p).length ≤ l.length := by
  induction l with
  | nil => simp [List.dropWhile]
  | cons c cs ih =>
    by_cases h : p c
    · simp [List.dropWhile, h]; omega
    · simp [List.dropWhile, h]

/-! ## Repair Pipeline (`clean_json_string`, `utils/json_extractor.py` lines 16-53)

Each numbered transform below embeds the regex substitution of the same
number in the source. -/

/-- Transform 1a: `re.sub(r'^```(?:json)?\s*', '', cleaned)` — strip a leading
markdown fence, an optional `json` tag, and following whitespace. -/
def stripLeadFence (cs : List Char) : List Char :=
  if startsWithL "```".toList cs then
    let r := cs.drop 3
    let r := if startsWithL "json".toList r then r.drop 4 else r
    r.dropWhile wsChar
  else cs

/-- Transform 1b: `re.sub(r'\s*```$', '', cleaned)` — strip a trailing
markdown fence together with the whitespace run before it. -/
def stripTailFence (cs : List Char) : List Char :=
  if endsWithL "```".toList cs then
    (((cs.reverse.drop 3).dropWhile wsChar)).reverse
  else cs

/-- Transform 2: replace every single quote by a double quote
(`cleaned.replace("'", '"')`), applied only under the guard in the source. -/
def replaceSquotes (cs : List Char) : List Char :=
  cs.map (fun c => if c = squote then dquote else c)

/-- Is the character a closing brace or bracket (the class `[}\]]`)? -/
def closerChar (c : Char) : Bool := c = rbrace || c = ']'

/-- Scanner for transform 3.  When the flag is set we are inside a matched
`,\s*` run: whitespace is dropped until the guaranteed closer, which is
emitted.  A match never overlaps another (its interior is whitespace and a
closer), so this one-pass scan is exactly the `re.sub` result. -/
def rmTCgo : Bool → List Char → List Char
  | _, [] => []
  | true, c :: rest => if wsChar c then rmTCgo true rest else c :: rmTCgo false rest
  | false, c :: rest =>
    if c = ',' then
      match rest.dropWhile wsChar with
      | d :: _ => if closerChar d then rmTCgo true rest else c :: rmTCgo false rest
      | [] => c :: rmTCgo false rest
    else c :: rmTCgo false rest

/-- Transform 3: `re.sub(r',\s*([}\]])', r'\1', cleaned)` — remove a comma
(and the whitespace after it) that immediately precedes a closing brace or
bracket.  Matches are found left to right and are non-overlapping, exactly
as `re.sub` scans. -/
def rmTrailingCommas (cs : List Char) : List Char := rmTCgo false cs

/-- Scanner for transform 4.  The flag marks comment mode: characters are
dropped until the line's newline (kept), since lazy `.*?$` stops at the
line end under `re.MULTILINE`. -/
def rmLCgo : Bool → List Char → List Char
  | _, [] => []
  | true, c :: rest => if c = '\n' then c :: rmLCgo false rest else rmLCgo true rest
  | false, c :: rest =>
    if c = '/' && (match rest with
      | d :: _ => d = '/'
      | [] => false) then rmLCgo true rest
    else c :: rmLCgo false rest

/-- Transform 4: `re.sub(r'//.*?$', '', cleaned, flags=re.MULTILINE)` — on
each line, delete from the first `//` to the end of the line. -/
def rmLineComments (cs : List Char) : List Char := rmLCgo false cs

/-- Word-boundary test on the left of a match: start of string, or a
non-word previous character. -/
def lboundOk (prev : Option Char) : Bool :=
  match prev with
  | none => true
  | some c => !wordChar c

/-- Word-boundary test on the right of a match: end of string, or a
non-word next character. -/
def rboundOk (rest : List Char) : Bool :=
  match rest with
  | [] => true
  | c :: _ => !wordChar c

/-- Scanner for transform 5: one character per step; `skip` counts pattern
characters still to pass over after a match (their text was replaced), and
`prev` is the character of the *original* string just before the current
position (`re` judges `\b` on the source text and does not rescan
replacements). -/
def rwGo (pat rep : List Char) : Nat → Option Char → List Char → List Char
  | _, _, [] => []
  | k + 1, _, c :: cs => rwGo pat rep k (some c) cs
  | 0, prev, c :: cs =>
    if startsWithL pat (c :: cs) &&
        (lboundOk prev && rboundOk ((c :: cs).drop pat.length)) then
      rep ++ rwGo pat rep (pat.length - 1) (some c) cs
    else c :: rwGo pat rep 0 (some c) cs

/-- Transform 5: `re.sub(r'\bPat\b', rep, cleaned)` for a fixed non-empty
word `pat`. -/
def replaceWord (pat rep : List Char) (prev : Option Char) (cs : List Char) :
    List Char :=
  rwGo pat rep 0 prev cs

/-- `clean_json_string` (`utils/json_extractor.py` lines 16-53): the ordered
repair pipeline.  Step 2 runs only when the text starts with a brace and no
double quote occurs in the first 20 characters, as in the source guard. -/
def cleanL (raw : List Char) : List Char :=
  let cleaned := pyStrip raw
  let cleaned := stripLeadFence cleaned
  let cleaned := stripTailFence cleaned
  let cleaned := pyStrip cleaned
  let cleaned :=
    if startsWithL [lbrace] cleaned && !((cleaned.take 20).any (fun c => c = dquote)) then
      replaceSquotes cleaned
    else cleaned
  let cleaned := rmTrailingCommas cleaned
  let cleaned := rmLineComments cleaned
  let cleaned := replaceWord "True".toList "true".toList none cleaned
  let cleaned := replaceWord "False".toList "false".toList none cleaned
  let cleaned := replaceWord "None".toList "null".toList none cleaned
  cleaned

/-- `clean_json_string` on `String`s. -/
def clean_json_string (raw : String) : String := String.mk (cleanL raw.toList)

/-! ## JSON values and `json.loads`

The extractor only ever feeds `json.loads` text produced by the repair
pipeline; the embedding below covers the JSON grammar those inputs use
(no exponent notation — the pipeline never produces it; a number with an
exponent makes the parse fail rather than succeed wrongly). -/

/-- A JSON number: sign, integer part, and optional fraction digits
(`fp = none` is an integer literal, `some ds` a decimal — Python parses the
former to `int` and the latter to `float`). -/
structure JNum where
  neg : Bool
  ip : Nat
  fp : Option (List Nat)
deriving DecidableEq, Repr

/-- JSON values; objects keep key order (Python dicts preserve insertion order). -/
inductive Json where
  | null : Json
  | bool : Bool → Json
  | num : JNum → Json
  | str : String → Json
  | arr : List Json → Json
  | obj : List (String × Json) → Json
/-- Whitespace skipped by the Python `json` decoder between tokens. -/
def jsonWs (c : Char) : Bool := c = ' ' || c = '\t' || c = '\n' || c = '\r'

/-- Skip inter-token whitespace. -/
def skipWsJ (cs : List Char) : List Char := cs.dropWhile jsonWs

/-- Decode a two-character escape (the JSON escapes other than `\uXXXX`). -/
def escDecode (e : Char) : Option Char :=
  if e = dquote then some dquote
  else if e = '\\' then some '\\'
  else if e = '/' then some '/'
  else if e = 'b' then some (Char.ofNat 8)
  else if e = 'f' then some (Char.ofNat 12)
  else if e = 'n' then some '\n'
  else if e = 'r' then some '\r'
  else if e = 't' then some '\t'
  else none

/-- Hex digit value. -/
def hexVal (c : Char) : Option Nat :=
  if '0' ≤ c && c ≤ '9' then some (c.toNat - 48)
  else if 'a' ≤ c && c ≤ 'f' then some (c.toNat - 87)
  else if 'A' ≤ c && c ≤ 'F' then some (c.toNat - 55)
  else none

/-- Parse the body of a JSON string after the opening quote, returning the
decoded characters and the rest after the closing quote.  Raw control
characters are rejected (strict mode), basic escapes and `\uXXXX` decoded. -/
def parseStrBodyF : Nat → List Char → Option (List Char × List Char)
  | 0, _ => none
  | _, [] => none
  | f + 1, c :: rest =>
    if c = dquote then some ([], rest)
    else if c = '\\' then
      match rest with
      | [] => none
      | e :: rest2 =>
        if e = 'u' then
          match rest2 with
          | h1 :: h2 :: h3 :: h4 :: rest3 =>
            match hexVal h1, hexVal h2, hexVal h3, hexVal h4 with
            | some a, some b, some c4, some d =>
              (parseStrBodyF f rest3).map
                (fun p => (Char.ofNat (((a * 16 + b) * 16 + c4) * 16 + d) :: p.1, p.2))
            | _, _, _, _ => none
          | _ => none
        else
          match escDecode e with
          | some c2 => (parseStrBodyF f rest2).map (fun p => (c2 :: p.1, p.2))
          | none => none
    else if c.toNat < 32 then none
    else (parseStrBodyF f rest).map (fun p => (c :: p.1, p.2))

/-- Parse a JSON string body (the fuel, one unit per character, never runs
out when instantiated with the text length plus one). -/
def parseStrBody (cs : List Char) : Option (List Char × List Char) :=
  parseStrBodyF (cs.length + 1) cs

/-- Digit run value (base 10). -/
def digitsVal (ds : List Char) : Nat := ds.foldl (fun a c => a * 10 + (c.toNat - 48)) 0

/-- Parse a JSON number (no exponent part; a following `e`/`E` fails the
parse).  The leading-zero restriction of the JSON grammar is enforced. -/
def parseNum (cs : List Char) : Option (JNum × List Char) :=
  let (neg, cs1) := match cs with
    | '-' :: t => (true, t)
    | _ => (false, cs)
  let ds := cs1.takeWhile digitChar
  if ds = [] then none
  else if ds.length > 1 && ds.headD ' ' = '0' then none
  else
    let cs2 := cs1.drop ds.length
    match cs2 with
    | '.' :: t =>
      let fs := t.takeWhile digitChar
      if fs = [] then none
      else
        let rest := t.drop fs.length
        match rest with
        | e :: _ => if e = 'e' || e = 'E' then none
            else some (⟨neg, digitsVal ds, some (fs.map (fun c => c.toNat - 48))⟩, rest)
        | [] => some (⟨neg, digitsVal ds, some (fs.map (fun c => c.toNat - 48))⟩, [])
    | e :: _ =>
      if e = 'e' || e = 'E' then none
      else some (⟨neg, digitsVal ds, none⟩, cs2)
    | [] => some (⟨neg, digitsVal ds, none⟩, [])

mutual

/-- Parse one JSON value (fueled recursive descent; leading whitespace skipped). -/
def parseV : Nat → List Char → Option (Json × List Char)
  | 0, _ => none
  | f + 1, cs0 =>
    let cs := skipWsJ cs0
    match cs with
    | [] => none
    | c :: rest =>
      if c = dquote then (parseStrBody rest).map (fun p => (.str (String.mk p.1), p.2))
      else if c = lbrace then
        let r := skipWsJ rest
        match r with
        | d :: rest2 =>
          if d = rbrace then some (.obj [], rest2)
          else (parseMembers f r).map (fun p => (.obj p.1, p.2))
        | [] => none
      else if c = '[' then
        let r := skipWsJ rest
        match r with
        | d :: rest2 =>
          if d = ']' then some (.arr [], rest2)
          else (parseItems f r).map (fun p => (.arr p.1, p.2))
        | [] => none
      else if startsWithL "true".toList cs then some (.bool true, cs.drop 4)
      else if startsWithL "false".toList cs then some (.bool false, cs.drop 5)
      else if startsWithL "null".toList cs then some (.null, cs.drop 4)
      else (parseNum cs).map (fun p => (.num p.1, p.2))

/-- Parse the members of an object, positioned at the first key, returning
the member list and the rest after the closing brace. -/
def parseMembers : Nat → List Char → Option (List (String × Json) × List Char)
  | 0, _ => none
  | f + 1, cs0 =>
    let cs := skipWsJ cs0
    match cs with
    | c :: rest =>
      if c = dquote then
        match parseStrBody rest with
        | some (k, rest2) =>
          match skipWsJ rest2 with
          | ':' :: rest3 =>
            match parseV f rest3 with
            | some (v, rest4) =>
              match skipWsJ rest4 with
              | ',' :: rest5 =>
                (parseMembers f rest5).map (fun p => ((String.mk k, v) :: p.1, p.2))
              | d :: rest5 =>
                if d = rbrace then some ([(String.mk k, v)], rest5) else none
              | [] => none
            | none => none
          | _ => none
        | none => none
      else none
    | [] => none

/-- Parse the items of an array, positioned at the first item, returning the
item list and the rest after the closing bracket. -/
def parseItems : Nat → List Char → Option (List Json × List Char)
  | 0, _ => none
  | f + 1, cs =>
    match parseV f cs with
    | some (v, rest) =>
      match skipWsJ rest with
      | ',' :: rest2 => (parseItems f rest2).map (fun p => (v :: p.1, p.2))
      | ']' :: rest2 => some ([v], rest2)
      | _ => none
    | none => none

end

/-- `json.loads`: parse a complete JSON document (fuel `2·len + 2` gates
only the recursion depth, which consumes at least one character per level). -/
def json_loads (cs : List Char) : Option Json :=
  match parseV (2 * cs.length + 2) cs with
  | some (v, rest) => if skipWsJ rest = [] then some v else none
  | none => none

/-! ## JSON printing (the serializer used to state the round-trip property) -/

/-- Escape one character for a JSON string literal. -/
def escChar (c : Char) : List Char :=
  if c = dquote then ['\\', dquote]
  else if c = '\\' then ['\\', '\\']
  else [c]

/-- Print a JSON string literal. -/
def printStr (s : String) : List Char :=
  dquote :: (s.toList.map escChar).flatten ++ [dquote]

/-- Print a natural number in decimal (fueled; `n` itself bounds the digit
count, so fuel `n + 1` never runs out). -/
def natPrintF : Nat → Nat → List Char
  | 0, _ => []
  | f + 1, n =>
    if n < 10 then [Char.ofNat (48 + n)]
    else natPrintF f (n / 10) ++ [Char.ofNat (48 + n % 10)]

/-- Print a natural number in decimal. -/
def natPrint (n : Nat) : List Char := natPrintF (n + 1) n

/-- Print a JSON number. -/
def printJNum (j : JNum) : List Char :=
  (if j.neg then ['-'] else []) ++ natPrint j.ip ++
    (match j.fp with
     | none => []
     | some ds => '.' :: ds.map (fun d => Char.ofNat (48 + d)))

mutual

/-- Print a JSON value compactly with `", "` and `": "` separators
(the default `json.dumps` style). -/
def printV : Json → List Char
  | .null => "null".toList
  | .bool true => "true".toList
  | .bool false => "false".toList
  | .num j => printJNum j
  | .str s => printStr s
  | .arr xs => '[' :: printItemsL xs ++ [']']
  | .obj kvs => lbrace :: printMembersL kvs ++ [rbrace]

/-- Print array items separated by `", "`. -/
def printItemsL : List Json → List Char
  | [] => []
  | [x] => printV x
  | x :: y :: xs => printV x ++ ',' :: ' ' :: printItemsL (y :: xs)

/-- Print object members separated by `", "`, each as `"key": value`. -/
def printMembersL : List (String × Json) → List Char
  | [] => []
  | [(k, v)] => printStr k ++ ':' :: ' ' :: printV v
  | (k, v) :: m :: kvs => printStr k ++ ':' :: ' ' :: printV v ++ ',' :: ' ' :: printMembersL (m :: kvs)

end

/-! ## Pydantic model (`models/appliance.py`: `ApplianceExtracted`)

Field set, defaults, constraints and the two field validators are taken
from the source.  Lax-mode coercion is embedded for the value shapes the
pipeline produces (JSON ints, integral floats, digit strings); pydantic
reports one error per failing field, collected in field declaration order,
which is how the error list below is built.  Error message texts are
abbreviated (claims depend on the count and the violated rule, not the
exact wording). -/

structure ApplianceExtracted where
  name : String
  number : Int
  power : Int
  func_time : Int
  num_windows : Int
  window_1 : List Int
  window_2 : Option (List Int)
  window_3 : Option (List Int)
  func_cycle : Int
  fixed : String
  occasional_use : JNum
  wd_we_type : Int
  data_complete : Bool
deriving DecidableEq, Repr

/-- Are the fraction digits all zero (an integral decimal)? -/
def fracZero (j : JNum) : Bool :=
  match j.fp with
  | none => true
  | some ds => ds.all (fun d => d = 0)

/-- Is the numeric value zero? -/
def jnumIsZero (j : JNum) : Bool := j.ip = 0 && fracZero j

/-- Is the numeric value strictly negative? -/
def jnumNeg (j : JNum) : Bool := j.neg && !jnumIsZero j

/-- Is the numeric value strictly greater than one? -/
def jnumGtOne (j : JNum) : Bool :=
  !j.neg && (2 ≤ j.ip || (j.ip = 1 && !fracZero j))

/-- Fraction digits with trailing zeros removed (the canonical form for
numeric equality). -/
def fracCanon (j : JNum) : List Nat :=
  match j.fp with
  | none => []
  | some ds => (ds.reverse.dropWhile (fun d => d = 0)).reverse

/-- Numeric equality of two decimals (used for the SQL comparison). -/
def jnumEqB (x y : JNum) : Bool :=
  (jnumIsZero x && jnumIsZero y) ||
    (x.neg == y.neg && x.ip == y.ip && fracCanon x == fracCanon y)

/-- Python dict lookup (later assignments to the same key win). -/
def dictGet (kvs : List (String × Json)) (k : String) : Option Json :=
  (kvs.reverse.find? (fun kv => kv.1 == k)).map (fun kv => kv.2)

/-- Lax coercion to `int`: integer literals, integral decimals, digit strings. -/
def asInt : Json → Option Int
  | .num ⟨neg, ip, none⟩ => some (if neg then -(ip : Int) else (ip : Int))
  | .num ⟨neg, ip, some ds⟩ =>
    if ds.all (fun d => d = 0) then some (if neg then -(ip : Int) else (ip : Int)) else none
  | .str s =>
    let cs := s.toList
    let (neg, cs1) := match cs with
      | '-' :: t => (true, t)
      | _ => (false, cs)
    if cs1 ≠ [] && cs1.all digitChar then
      some (if neg then -(digitsVal cs1 : Int) else (digitsVal cs1 : Int))
    else none
  | _ => none

/-- Lax coercion to `str` (numbers are not silently stringified). -/
def asStr : Json → Option String
  | .str s => some s
  | _ => none

/-- Lax coercion to `float`: any JSON number, or a numeric string. -/
def asFloat : Json → Option JNum
  | .num j => some j
  | .str s =>
    match parseNum s.toList with
    | some (j, []) => some j
    | _ => none
  | _ => none

/-- Lax coercion to `bool` (the pipeline only ever passes booleans here). -/
def asBool : Json → Option Bool
  | .bool b => some b
  | _ => none

/-- Coerce each array item to `int`. -/
def asIntList : Json → Option (List Int)
  | .arr xs => xs.mapM asInt
  | _ => none

/-- `validate_window_range` (`models/appliance.py` lines 47-60): first failing
check produces the field's error. -/
def windowError (field : String) (v : List Int) : Option String :=
  match v with
  | [a, b] =>
    if a < 0 || a > 1440 then some (field ++ ": start must be 0-1440")
    else if b < 0 || b > 1440 then some (field ++ ": end must be 0-1440")
    else if b ≤ a then some (field ++ ": end must be after start")
    else none
  | _ => some (field ++ ": must have exactly 2 items")

/-- One optional window field (`window_2`, `window_3`): absent or `null`
passes as `none`; otherwise coerced and range-checked. -/
def optWindowField (field : String) (kvs : List (String × Json)) :
    Except String (Option (List Int)) :=
  match dictGet kvs field with
  | none => .ok none
  | some .null => .ok none
  | some j =>
    match asIntList j with
    | none => .error (field ++ ": must be a list of integers")
    | some v =>
      match windowError field v with
      | some e => .error e
      | none => .ok (some v)

/-- An integer field with a lower bound and an optional upper bound
(`func_cycle` has only `ge=1` in the source). -/
def intField (field : String) (kvs : List (String × Json)) (required : Bool)
    (dflt : Int) (lo : Int) (hi : Option Int) : Except String Int :=
  match dictGet kvs field with
  | none => if required then .error (field ++ ": field required") else .ok dflt
  | some j =>
    match asInt j with
    | none => .error (field ++ ": must be an integer")
    | some n =>
      if n < lo || (match hi with | some h => n > h | none => false) then
        .error (field ++ ": out of range")
      else .ok n

/-- `ApplianceExtracted(**data)`: run every field's validation, collect the
errors in field order; all fields valid gives the record. -/
def applianceOfJson (kvs : List (String × Json)) :
    Except (List String) ApplianceExtracted :=
  let nameE : Except String String :=
    match dictGet kvs "name" with
    | none => .error "name: field required"
    | some j =>
      match asStr j with
      | none => .error "name: must be a string"
      | some s =>
        if s.length < 1 then .error "name: too short"
        else if s.length > 100 then .error "name: too long"
        else .ok s
  let numberE := intField "number" kvs false 1 1 (some 100)
  let powerE := intField "power" kvs true 0 1 (some 10000)
  let funcTimeE := intField "func_time" kvs true 0 1 (some 1440)
  let numWindowsE := intField "num_windows" kvs false 1 1 (some 3)
  let window1E : Except String (List Int) :=
    match dictGet kvs "window_1" with
    | none => .error "window_1: field required"
    | some j =>
      match asIntList j with
      | none => .error "window_1: must be a list of integers"
      | some v =>
        match windowError "window_1" v with
        | some e => .error e
        | none => .ok v
  let window2E := optWindowField "window_2" kvs
  let window3E := optWindowField "window_3" kvs
  let funcCycleE : Except String Int :=
    match intField "func_cycle" kvs false 1 1 none with
    | .error e => .error e
    | .ok c =>
      match funcTimeE with
      | .ok t =>
        if c > t then .error "func_cycle: cannot exceed func_time" else .ok c
      | .error _ => .ok c
  let fixedE : Except String String :=
    match dictGet kvs "fixed" with
    | none => .ok "no"
    | some j =>
      match asStr j with
      | none => .error "fixed: must be a string"
      | some s =>
        if s = "yes" || s = "no" then .ok s
        else .error "fixed: must match yes or no"
  let occasionalE : Except String JNum :=
    match dictGet kvs "occasional_use" with
    | none => .ok ⟨false, 1, some [0]⟩
    | some j =>
      match asFloat j with
      | none => .error "occasional_use: must be a number"
      | some v =>
        if jnumNeg v || jnumGtOne v then .error "occasional_use: out of range"
        else .ok v
  let wdWeE := intField "wd_we_type" kvs false 2 0 (some 2)
  let dataCompleteE : Except String Bool :=
    match dictGet kvs "data_complete" with
    | none => .ok true
    | some j =>
      match asBool j with
      | none => .error "data_complete: must be a boolean"
      | some b => .ok b
  let errOf : {α : Type} → Except String α → Option String := fun e =>
    match e with
    | .error m => some m
    | .ok _ => none
  let errs := ([errOf nameE, errOf numberE, errOf powerE, errOf funcTimeE,
      errOf numWindowsE, errOf window1E, errOf window2E, errOf window3E,
      errOf funcCycleE, errOf fixedE, errOf occasionalE, errOf wdWeE,
      errOf dataCompleteE]).filterMap id
  match nameE, numberE, powerE, funcTimeE, numWindowsE, window1E, window2E,
      window3E, funcCycleE, fixedE, occasionalE, wdWeE, dataCompleteE with
  | .ok nm, .ok nu, .ok po, .ok ft, .ok nw, .ok w1, .ok w2, .ok w3, .ok fc,
      .ok fx, .ok ou, .ok wd, .ok dc =>
    .ok ⟨nm, nu, po, ft, nw, w1, w2, w3, fc, fx, ou, wd, dc⟩
  | _, _, _, _, _, _, _, _, _, _, _, _, _ => .error errs

/-- Result of `validate_appliance` (`services/validation_service.py`). -/
structure ValidationResult where
  valid : Bool
  errors : List String
  data : Option ApplianceExtracted
deriving Repr

/-- `validate_appliance` (`services/validation_service.py` lines 12-40,
pydantic branch — `models.appliance` imports successfully in the repo). -/
def validate_appliance (kvs : List (String × Json)) : ValidationResult :=
  match applianceOfJson kvs with
  | .ok a => ⟨true, [], some a⟩
  | .error es => ⟨false, es, none⟩

/-- An `int` as a JSON number. -/
def intJ (n : Int) : Json := .num ⟨n < 0, n.natAbs, none⟩

/-- An optional window as a JSON value (`None` dumps to `null`). -/
def optListJ : Option (List Int) → Json
  | none => .null
  | some l => .arr (l.map intJ)

/-- `model_dump()` of a validated record: all fields in declaration order. -/
def dumpKvs (a : ApplianceExtracted) : List (String × Json) :=
  [("name", .str a.name), ("number", intJ a.number), ("power", intJ a.power),
   ("func_time", intJ a.func_time), ("num_windows", intJ a.num_windows),
   ("window_1", .arr (a.window_1.map intJ)), ("window_2", optListJ a.window_2),
   ("window_3", optListJ a.window_3), ("func_cycle", intJ a.func_cycle),
   ("fixed", .str a.fixed), ("occasional_use", .num a.occasional_use),
   ("wd_we_type", intJ a.wd_we_type), ("data_complete", .bool a.data_complete)]

/-! ## Block Scanner and Fallback Extractor (`utils/json_extractor.py`) -/

/-- Split at the first occurrence of `pat`, returning the text before it and
the text after it (the scan of `re` for a literal pattern). -/
def splitFirstSub (pat : List Char) : List Char → Option (List Char × List Char)
  | [] => none
  | c :: cs =>
    if startsWithL pat (c :: cs) then some ([], (c :: cs).drop pat.length)
    else (splitFirstSub pat cs).map (fun p => (c :: p.1, p.2))

/-- Does `pat` occur anywhere in `cs`? -/
def containsSub (pat cs : List Char) : Bool := (splitFirstSub pat cs).isSome

theorem splitFirstSub_shrinks (pat : List Char) (hp : pat ≠ []) :
    ∀ cs a b, splitFirstSub pat cs = some (a, b) → b.length < cs.length := by
  intro cs
  induction cs with
  | nil => intro a b h; simp [splitFirstSub] at h
  | cons c cs ih =>
    intro a b h
    by_cases hs : startsWithL pat (c :: cs) = true
    · rw [splitFirstSub, if_pos hs] at h
      have hb : (c :: cs).drop pat.length = b :=
        congrArg Prod.snd (Option.some.inj h)
      have hlen : 0 < pat.length := by
        cases pat with
        | nil => exact absurd rfl hp
        | cons p ps => simp
      rw [← hb]
      simp [List.length_drop]
      omega
    · rw [splitFirstSub, if_neg hs] at h
      rw [Option.map_eq_some'] at h
      obtain ⟨p, h2, hfp⟩ := h
      have hb : p.2 = b := congrArg Prod.snd hfp
      have hlt := ih p.1 p.2 (by rw [h2])
      rw [hb] at hlt
      simp
      omega

/-- The start marker (configuration constant of the pipeline). -/
def startMarker : List Char := "[JSON_DATA_START]".toList

/-- The end marker. -/
def endMarker : List Char := "[JSON_DATA_END]".toList

/-- Strategy 1: `re.findall(r'\[JSON_DATA_START\](.*?)\[JSON_DATA_END\]', text,
re.DOTALL)` — lazy, non-overlapping, left to right: each match captures from
a start marker to the nearest following end marker. -/
def findAllBetweenF : Nat → List Char → List (List Char)
  | 0, _ => []
  | f + 1, cs =>
    match splitFirstSub startMarker cs with
    | none => []
    | some (_, rest) =>
      match splitFirstSub endMarker rest with
      | none => []
      | some (mid, rest2) => mid :: findAllBetweenF f rest2

/-- As above, with enough fuel (each match consumes both markers, so the
text length bounds the match count). -/
def findAllBetween (cs : List Char) : List (List Char) :=
  findAllBetweenF (cs.length + 1) cs

/-- Strategy 2: `re.findall(r'\[JSON_DATA_START\](.*?)$', text, re.DOTALL)` —
at most one match: everything after the first start marker, minus a single
trailing newline (`$` also matches just before a final newline). -/
def truncatedCapture (cs : List Char) : Option (List Char) :=
  (splitFirstSub startMarker cs).map
    (fun p => if p.2.getLastD ' ' = '\n' then p.2.dropLast else p.2)

/-- Does a brace-free segment contain `"name"` and then `"power"`, in order
(the backtracking of `[^{}]*"name"[^{}]*"power"[^{}]*`)? -/
def hasNamePower (seg : List Char) : Bool :=
  match splitFirstSub ("\"name\"".toList) seg with
  | some (_, after) => containsSub ("\"power\"".toList) after
  | none => false

/-- Strategy 3: `re.findall(r'\{[^{}]*"name"[^{}]*"power"[^{}]*\}', text,
re.DOTALL)` — brace-free segments between `{` and the next brace character,
matching when they contain the two key names in order. -/
def strategy3F : Nat → List Char → List (List Char)
  | 0, _ => []
  | f + 1, cs =>
    match splitFirstSub [lbrace] cs with
    | none => []
    | some (_, rest) =>
      let seg := rest.takeWhile (fun c => !(c = lbrace) && !(c = rbrace))
      match rest.drop seg.length with
      | d :: tail =>
        if d = rbrace && hasNamePower seg then
          (lbrace :: (seg ++ [rbrace])) :: strategy3F f tail
        else strategy3F f rest
      | [] => []

/-- As above, with enough fuel (each step consumes at least the brace). -/
def strategy3 (cs : List Char) : List (List Char) :=
  strategy3F (cs.length + 1) cs

/-- Is the character a quote of either kind (the class `["\']`)? -/
def quoteChar (c : Char) : Bool := c = dquote || c = squote

/-- Try every position left to right, as `re.search` does (including the
empty suffix at the end). -/
def searchPos {α : Type} (m : List Char → Option α) : List Char → Option α
  | [] => m []
  | c :: cs =>
    match m (c :: cs) with
    | some v => some v
    | none => searchPos m cs

/-- Anchored match of `["\']field["\']\s*:\s*["\']([^"\']+)["\']` at the head
of the text (used for `name` and `fixed`). -/
def matchStrFieldAt (field : List Char) (cs : List Char) : Option String :=
  match cs with
  | q1 :: r1 =>
    if quoteChar q1 && startsWithL field r1 then
      match r1.drop field.length with
      | q2 :: r2 =>
        if quoteChar q2 then
          match (r2.dropWhile wsChar) with
          | ':' :: r4 =>
            match (r4.dropWhile wsChar) with
            | q3 :: r6 =>
              if quoteChar q3 then
                let v := r6.takeWhile (fun c => !quoteChar c)
                if v ≠ [] && r6.drop v.length ≠ [] then some (String.mk v)
                else none
              else none
            | [] => none
          | _ => none
        else none
      | [] => none
    else none
  | [] => none

/-- Consume the `["\']?field["\']?\s*:\s*` front matter at the head of the
text.  The optional quotes are deterministic here because the field names
start with a letter (a quote head forces the quoted branch). -/
def matchFieldColon (field : List Char) (cs : List Char) : Option (List Char) :=
  let afterField? : Option (List Char) :=
    match cs with
    | q :: r =>
      if quoteChar q then
        if startsWithL field r then some (r.drop field.length) else none
      else if startsWithL field cs then some (cs.drop field.length)
      else none
    | [] => none
  match afterField? with
  | none => none
  | some r0 =>
    let r1 := match r0 with
      | q :: r => if quoteChar q then r else r0
      | [] => r0
    match r1.dropWhile wsChar with
    | ':' :: r2 => some (r2.dropWhile wsChar)
    | _ => none

/-- Anchored match of `["\']?field["\']?\s*:\s*(\d+)`. -/
def matchNumFieldAt (field : List Char) (cs : List Char) : Option Nat :=
  match matchFieldColon field cs with
  | none => none
  | some r =>
    let ds := r.takeWhile digitChar
    if ds = [] then none else some (digitsVal ds)

/-- Anchored match of `["\']?field["\']?\s*:\s*([\d.]+)`, returning the raw
captured run (conversion happens separately, as `float(...)` can fail). -/
def matchFloatFieldAt (field : List Char) (cs : List Char) : Option (List Char) :=
  match matchFieldColon field cs with
  | none => none
  | some r =>
    let ds := r.takeWhile (fun c => digitChar c || c = '.')
    if ds = [] then none else some ds

/-- Anchored match of `["\']?field["\']?\s*:\s*\[\s*(\d+)\s*,\s*(\d+)\s*\]`. -/
def matchWindowAt (field : List Char) (cs : List Char) : Option (Nat × Nat) :=
  match matchFieldColon field cs with
  | none => none
  | some r =>
    match r with
    | '[' :: r1 =>
      let r2 := r1.dropWhile wsChar
      let d1 := r2.takeWhile digitChar
      if d1 = [] then none
      else
        match (r2.drop d1.length).dropWhile wsChar with
        | ',' :: r3 =>
          let r4 := r3.dropWhile wsChar
          let d2 := r4.takeWhile digitChar
          if d2 = [] then none
          else
            match (r4.drop d2.length).dropWhile wsChar with
            | ']' :: _ => some (digitsVal d1, digitsVal d2)
            | _ => none
        | _ => none
    | _ => none

/-- Anchored match of `["\']?data_complete["\']?\s*:\s*(true|false|True|False)`,
already lowered to the boolean (`group(1).lower() == 'true'`). -/
def matchBoolFieldAt (field : List Char) (cs : List Char) : Option Bool :=
  match matchFieldColon field cs with
  | none => none
  | some r =>
    if startsWithL "true".toList r then some true
    else if startsWithL "false".toList r then some false
    else if startsWithL "True".toList r then some true
    else if startsWithL "False".toList r then some false
    else none

/-- `float(run)` for a run of digits and dots: at most one dot and at least
one digit, else `ValueError` (which aborts the whole salvage). -/
def pyFloat (run : List Char) : Option JNum :=
  if run.count '.' > 1 then none
  else if run.all (fun c => !digitChar c) then none
  else
    let ip := run.takeWhile digitChar
    if run.count '.' = 0 then some ⟨false, digitsVal ip, none⟩
    else some ⟨false, digitsVal ip,
      some ((run.drop (ip.length + 1)).map (fun c => c.toNat - 48))⟩

/-- A natural number as a JSON value. -/
def natJ (n : Nat) : Json := .num ⟨false, n, none⟩

/-- `dict.setdefault(k, v)`: append the pair only when the key is absent. -/
def setdefault (kvs : List (String × Json)) (k : String) (v : Json) :
    List (String × Json) :=
  if kvs.any (fun kv => kv.1 == k) then kvs else kvs ++ [(k, v)]

/-- `try_manual_extraction` (`utils/json_extractor.py` lines 108-167):
regex salvage of the known field set.  Gives up without a name; a failing
`float(...)` conversion aborts (the catch-all returns `None`); succeeds only
when `name`, `power` and `func_time` are all *truthy* — so a recovered `0`
counts as absent. -/
def try_manual_extraction (raw : List Char) : Option Json :=
  match searchPos (matchStrFieldAt "name".toList) raw with
  | none => none
  | some nm =>
    let number? := searchPos (matchNumFieldAt "number".toList) raw
    let power? := searchPos (matchNumFieldAt "power".toList) raw
    let funcTime? := searchPos (matchNumFieldAt "func_time".toList) raw
    let numWindows? := searchPos (matchNumFieldAt "num_windows".toList) raw
    let funcCycle? := searchPos (matchNumFieldAt "func_cycle".toList) raw
    let wdWe? := searchPos (matchNumFieldAt "wd_we_type".toList) raw
    let ouRun? := searchPos (matchFloatFieldAt "occasional_use".toList) raw
    let rvRun? := searchPos (matchFloatFieldAt "random_var_w".toList) raw
    let conv : Option (List Char) → Option (Option JNum) := fun r =>
      match r with
      | none => some none
      | some run =>
        match pyFloat run with
        | some v => some (some v)
        | none => none
    match conv ouRun?, conv rvRun? with
    | some ou?, some rv? =>
      let fixed? := searchPos (matchStrFieldAt "fixed".toList) raw
      let w1? := searchPos (matchWindowAt "window_1".toList) raw
      let w2? := searchPos (matchWindowAt "window_2".toList) raw
      let w3? := searchPos (matchWindowAt "window_3".toList) raw
      let dc? := searchPos (matchBoolFieldAt "data_complete".toList) raw
      if power?.getD 0 ≠ 0 && funcTime?.getD 0 ≠ 0 then
        let optNum : String → Option Nat → List (String × Json) := fun k v =>
          match v with
          | some n => [(k, natJ n)]
          | none => []
        let optF : String → Option JNum → List (String × Json) := fun k v =>
          match v with
          | some j => [(k, .num j)]
          | none => []
        let optW : String → Option (Nat × Nat) → List (String × Json) := fun k v =>
          match v with
          | some (a, b) => [(k, .arr [natJ a, natJ b])]
          | none => []
        let found := [("name", Json.str nm)] ++
          optNum "number" number? ++ optNum "power" power? ++
          optNum "func_time" funcTime? ++ optNum "num_windows" numWindows? ++
          optNum "func_cycle" funcCycle? ++ optNum "wd_we_type" wdWe? ++
          optF "occasional_use" ou? ++ optF "random_var_w" rv? ++
          (match fixed? with
           | some s => [("fixed", Json.str s)]
           | none => []) ++
          optW "window_1" w1? ++ optW "window_2" w2? ++ optW "window_3" w3? ++
          (match dc? with
           | some b => [("data_complete", Json.bool b)]
           | none => [])
        let found := setdefault found "number" (natJ 1)
        let found := setdefault found "num_windows" (natJ 1)
        let found := setdefault found "func_cycle" (natJ 1)
        let found := setdefault found "fixed" (Json.str "no")
        let found := setdefault found "occasional_use" (.num ⟨false, 1, some [0]⟩)
        let found := setdefault found "wd_we_type" (natJ 2)
        let found := setdefault found "data_complete" (Json.bool true)
        some (.obj found)
      else none
    | _, _ => none

/-- Index of the last comma (`attempt.rfind(",")`). -/
def rfindComma (cs : List Char) : Option Nat :=
  match cs.reverse.findIdx? (fun c => c = ',') with
  | some j => some (cs.length - 1 - j)
  | none => none

/-- `try_fix_truncated_json` (`utils/json_extractor.py` lines 56-105):
clean, check the text opens with a brace and is unbalanced, drop a trailing
incomplete fragment after the last comma, close brackets then braces,
re-strip trailing commas, and attempt a strict parse. -/
def try_fix_truncated_json (raw : List Char) : Option Json :=
  let cleaned := cleanL raw
  if !(startsWithL [lbrace] cleaned) then none
  else
    let ob : Int := (cleaned.count lbrace : Int) - (cleaned.count rbrace : Int)
    let obk : Int := (cleaned.count '[' : Int) - (cleaned.count ']' : Int)
    if ob = 0 && obk = 0 then none
    else
      let attempt := cleaned
      let attempt :=
        match rfindComma attempt with
        | some i =>
          if i > 0 then
            let afterComma := pyStrip (attempt.drop (i + 1))
            let complete :=
              endsWithL [rbrace] afterComma || endsWithL [']'] afterComma ||
              endsWithL [dquote] afterComma ||
              (afterComma ≠ [] && digitChar (afterComma.getLastD ' ')) ||
              endsWithL "true".toList afterComma ||
              endsWithL "false".toList afterComma
            if complete then attempt else attempt.take i
          else attempt
        | none => attempt
      let attempt := attempt ++ List.replicate obk.toNat ']' ++
        List.replicate ob.toNat rbrace
      let attempt := rmTrailingCommas attempt
      json_loads attempt

/-- The pydantic step of the parse loop (`extract_all_json` lines 240-254):
a dict that validates is replaced by its `model_dump()`; a dict that fails
validation is kept as-is (lenient mode); a non-dict raises `TypeError` on
`**`, is caught, and the raw value is kept. -/
def pydanticStep (d : Json) : Json :=
  match d with
  | .obj kvs =>
    match applianceOfJson kvs with
    | .ok a => .obj (dumpKvs a)
    | .error _ => d
  | _ => d

/-- One iteration of the parse loop (`extract_all_json` lines 232-275):
clean then strict-parse; on failure fix truncation on the *raw* match, then
salvage.  At most one record comes out of one block. -/
def parseBlock (m : List Char) : Option Json :=
  match json_loads (cleanL m) with
  | some d => some (pydanticStep d)
  | none =>
    match try_fix_truncated_json m with
    | some j => some j
    | none => try_manual_extraction m

/-- `extract_all_json` (`utils/json_extractor.py` lines 178-277). -/
def extract_all_json (text : String) : List Json :=
  let cs := text.toList
  if cs = [] then []
  else
    let ms := findAllBetween cs
    let apps1 : List Json :=
      if ms = [] then
        match truncatedCapture cs with
        | some raw0 =>
          let raw := pyStrip raw0
          if raw = [] then []
          else
            match try_fix_truncated_json raw with
            | some j => [j]
            | none =>
              match try_manual_extraction raw with
              | some j => [j]
              | none => []
        | none => []
      else []
    let ms2 := if ms.isEmpty && apps1.isEmpty then strategy3 cs else ms
    apps1 ++ ms2.filterMap parseBlock

/-- The candidate blocks `extract_all_json` considers: the marker-delimited
matches when any exist, otherwise the (at most one) truncated capture
followed by the markerless strategy-3 matches. -/
def candidateBlocks (text : String) : List (List Char) :=
  let cs := text.toList
  if cs = [] then []
  else
    let ms := findAllBetween cs
    if ms ≠ [] then ms
    else
      (match truncatedCapture cs with
       | some raw0 => if pyStrip raw0 = [] then [] else [pyStrip raw0]
       | none => []) ++ strategy3 cs

/-! ## Schedule Analyzer (`services/context_service.py`: `analyze_time_windows`)

The analyzer reads only the name and the six window columns of each
persisted row; rows are modelled with exactly those fields.  A period's
appliance set is a Python `set`, modelled as `Finset String` (listing order
of `list(set)` is not observable in any claim). -/

/-- The window columns of a persisted appliance row as read by the analyzer. -/
structure DBAppliance where
  name : String
  window_1_start : Option Nat
  window_1_end : Option Nat
  window_2_start : Option Nat
  window_2_end : Option Nat
  window_3_start : Option Nat
  window_3_end : Option Nat
deriving DecidableEq, Repr

/-- Mark all 30-minute blocks in `range(start // 30, min(end // 30 + 1, 48))`. -/
def markBlocks (tl : List (Bool × List String)) (nm : String) (s e : Nat) :
    List (Bool × List String) :=
  let sb := s / 30
  let eb := min (e / 30 + 1) 48
  tl.mapIdx (fun i p => if sb ≤ i && i < eb then (true, p.2 ++ [nm]) else p)

/-- Mark the (up to three) windows of one appliance. -/
def applyAppliance (tl : List (Bool × List String)) (a : DBAppliance) :
    List (Bool × List String) :=
  let tl := match a.window_1_start, a.window_1_end with
    | some s, some e => markBlocks tl a.name s e
    | _, _ => tl
  let tl := match a.window_2_start, a.window_2_end with
    | some s, some e => markBlocks tl a.name s e
    | _, _ => tl
  match a.window_3_start, a.window_3_end with
  | some s, some e => markBlocks tl a.name s e
  | _, _ => tl

/-- The 48-block day timeline after marking every appliance. -/
def timelineOf (apps : List DBAppliance) : List (Bool × List String) :=
  apps.foldl applyAppliance (List.replicate 48 (false, []))

/-- One merged occupied interval (`stop` is the exclusive end in minutes). -/
structure Period where
  start : Nat
  stop : Nat
  apps : Finset String
deriving DecidableEq

instance : Inhabited Period := ⟨⟨0, 0, ∅⟩⟩

/-- Merge contiguous occupied blocks into periods (the single pass over the
timeline in the source, including the flush of the last open period). -/
def collectPeriods (tl : List (Bool × List String)) : List Period :=
  let step := fun (acc : List Period × Option Period) (ip : Nat × (Bool × List String)) =>
    match acc.2, ip.2.1 with
    | none, true => (acc.1, some ⟨ip.1 * 30, (ip.1 + 1) * 30, ip.2.2.toFinset⟩)
    | some p, true => (acc.1, some ⟨p.start, (ip.1 + 1) * 30, p.apps ∪ ip.2.2.toFinset⟩)
    | some p, false => (acc.1 ++ [p], none)
    | none, false => acc
  let r := tl.enum.foldl step ([], none)
  r.1 ++ (match r.2 with
    | some p => [p]
    | none => [])

/-- A free interval. -/
structure Gap where
  start : Nat
  stop : Nat
deriving DecidableEq, Repr

/-- The free intervals: gaps of at least 60 minutes between consecutive
occupied periods, a head gap when the day does not start occupied
(`not occupied or occupied[0].start > 60`), and a tail gap when it does not
end occupied (`not occupied or occupied[-1].end < 1380`). -/
def availableOf (occ : List Period) : List Gap :=
  let mid := (occ.zip occ.tail).filterMap (fun pq =>
    if pq.2.start - pq.1.stop ≥ 60 then some ⟨pq.1.stop, pq.2.start⟩ else none)
  let withHead :=
    if occ.isEmpty || (occ.headD default).start > 60 then
      let e := if occ.isEmpty then 1440 else (occ.headD default).start
      if e ≥ 60 then ⟨0, e⟩ :: mid else mid
    else mid
  if occ.isEmpty || (occ.getLastD default).stop < 1380 then
    let s := if occ.isEmpty then 0 else (occ.getLastD default).stop
    if 1440 - s ≥ 60 then withHead ++ [⟨s, 1440⟩] else withHead
  else withHead

/-- The coverage report. -/
structure Coverage where
  occupied : List Period
  available : List Gap
deriving DecidableEq

/-- `analyze_time_windows` (`services/context_service.py` lines 56-158). -/
def analyze_time_windows (apps : List DBAppliance) : Coverage :=
  let occ := collectPeriods (timelineOf apps)
  ⟨occ, availableOf occ⟩

/-! ## Persistence rows and reconciliation
(`database/queries.py`: `save_appliance`, `appliance_exists`;
`main.py`: `update_appliance` and the per-record save logic of `chat_loop`)

A row holds exactly the columns `save_appliance` inserts, as the raw values
taken from the extracted dict (the relational engine itself is the external
collaborator; its `LOWER`, `TRIM` and equality are embedded below). -/

/-- One persisted appliance row. -/
structure Row where
  appliance_id : Nat
  created_at : Nat
  session_id : Json
  user_id : Json
  family_id : Json
  name : Json
  number : Json
  power : Json
  func_time : Json
  num_windows : Json
  window_1_start : Json
  window_1_end : Json
  window_2_start : Json
  window_2_end : Json
  window_3_start : Json
  window_3_end : Json
  func_cycle : Json
  fixed : Json
  occasional_use : Json
  wd_we_type : Json

/-- Python truthiness of a JSON-shaped value. -/
def pyTruthy : Json → Bool
  | .null => false
  | .bool b => b
  | .num j => !jnumIsZero j
  | .str s => !(s == "")
  | .arr xs => !xs.isEmpty
  | .obj kvs => !kvs.isEmpty

/-- `data.get(k, dflt)`. -/
def pyGet (kvs : List (String × Json)) (k : String) (dflt : Json) : Json :=
  (dictGet kvs k).getD dflt

/-- `dict.pop(k, None)`: drop the key. -/
def popKey (kvs : List (String × Json)) (k : String) : List (String × Json) :=
  kvs.filter (fun kv => !(kv.1 == k))

/-- `data[k] = v` (overwrite; `dictGet` is last-wins). -/
def dictSet (kvs : List (String × Json)) (k : String) (v : Json) :
    List (String × Json) :=
  kvs ++ [(k, v)]

/-- `window_k[i] if window_k and len(window_k) >= 2 else None`
(`save_appliance` lines 81-91; the values reaching it are lists or absent). -/
def winPart (kvs : List (String × Json)) (k : String) (idx : Nat) : Json :=
  match dictGet kvs k with
  | some (.arr xs) => if xs.length ≥ 2 then xs.getD idx .null else .null
  | _ => .null

/-- Fresh primary key (the DB sequence). -/
def nextId (db : List Row) : Nat :=
  (db.map (fun r => r.appliance_id)).foldl max 0 + 1

/-- Fresh creation stamp (`created_at` is strictly increasing across inserts). -/
def nextCreated (db : List Row) : Nat :=
  (db.map (fun r => r.created_at)).foldl max 0 + 1

/-- `save_appliance` (`database/queries.py` lines 69-140): the inserted row,
with the source's `data.get` defaults. -/
def save_appliance (newId created : Nat) (kvs : List (String × Json)) : Row :=
  { appliance_id := newId
    created_at := created
    session_id := pyGet kvs "session_id" .null
    user_id := pyGet kvs "user_id" .null
    family_id := pyGet kvs "family_id" .null
    name := pyGet kvs "name" .null
    number := pyGet kvs "number" (natJ 1)
    power := pyGet kvs "power" .null
    func_time := pyGet kvs "func_time" .null
    num_windows := pyGet kvs "num_windows" (natJ 1)
    window_1_start := winPart kvs "window_1" 0
    window_1_end := winPart kvs "window_1" 1
    window_2_start := winPart kvs "window_2" 0
    window_2_end := winPart kvs "window_2" 1
    window_3_start := winPart kvs "window_3" 0
    window_3_end := winPart kvs "window_3" 1
    func_cycle := pyGet kvs "func_cycle" (natJ 1)
    fixed := pyGet kvs "fixed" (.str "no")
    occasional_use := pyGet kvs "occasional_use" (.num ⟨false, 1, some [0]⟩)
    wd_we_type := pyGet kvs "wd_we_type" (natJ 2) }

/-- SQL `TRIM`: strip spaces at both ends. -/
def trimSpaces (cs : List Char) : List Char :=
  ((cs.dropWhile (fun c => c = ' ')).reverse.dropWhile (fun c => c = ' ')).reverse

/-- The identity key `LOWER(TRIM(name))`. -/
def normName (s : String) : String :=
  String.mk ((trimSpaces s.toList).map lowerChar)

/-- SQL equality of two name values under `LOWER(TRIM(·))` (non-text values
never reach this comparison in the pipeline). -/
def sqlNameEq (a b : Json) : Bool :=
  match a, b with
  | .str x, .str y => normName x == normName y
  | _, _ => false

/-- SQL equality of a stored value and a string parameter. -/
def sqlStrEq (a : Json) (s : String) : Bool :=
  match a with
  | .str x => x == s
  | _ => false

/-- SQL numeric equality of a stored value and a numeric parameter. -/
def sqlNumEq (a b : Json) : Bool :=
  match a, b with
  | .num x, .num y => jnumEqB x y
  | _, _ => false

/-- `appliance_exists` (`database/queries.py` lines 172-193): same session,
same `LOWER(TRIM(name))`, and — only when the candidate has a first-window
start — the same `window_1_start`. -/
def appliance_exists (db : List Row) (sid : String) (nm : Json)
    (w1s : Option Json) : Bool :=
  db.any (fun r =>
    sqlStrEq r.session_id sid && sqlNameEq r.name nm &&
      (match w1s with
       | none => true
       | some w => sqlNumEq r.window_1_start w))

/-- `update_appliance` (`main.py` lines 242-261): find the latest row of the
session with the same normalized name; if found, delete it and insert the
candidate as a fresh row (full replacement), else report failure. -/
def update_appliance (db : List Row) (sid : String)
    (kvs : List (String × Json)) : Bool × List Row :=
  let nm := pyGet kvs "name" (.str "")
  let sameName := db.filter (fun r => sqlStrEq r.session_id sid && sqlNameEq r.name nm)
  let latest := sameName.foldl
    (fun best r =>
      match best with
      | none => some r
      | some b => if r.created_at > b.created_at then some r else best)
    none
  match latest with
  | none => (false, db)
  | some old =>
    let newRow := save_appliance (nextId db) (nextCreated db) (popKey kvs "update")
    (true, db.filter (fun r => !(r.appliance_id == old.appliance_id)) ++ [newRow])

/-- Outcome of processing one extracted record in `chat_loop`. -/
inductive SaveOutcome where
  | persistedNew : SaveOutcome
  | persistedUpdate : SaveOutcome
  | skippedDuplicate : SaveOutcome
  | rejected : SaveOutcome
deriving DecidableEq, Repr

/-- Result of one record step: the decision, the violation list handed back
by `validate_appliance`, and the record store afterwards. -/
structure StepResult where
  outcome : SaveOutcome
  errors : List String
  db : List Row

/-- The per-record save logic of `chat_loop` (`main.py` lines 371-423):
validate; accept when valid or at most one violation; on `update` replace or
fall back to a fresh insert; otherwise skip duplicates, else insert. -/
def process_extracted (db : List Row) (sid uid fid : String)
    (kvs : List (String × Json)) : StepResult :=
  let validation := validate_appliance kvs
  let isUpd := pyTruthy (pyGet kvs "update" (.bool false))
  if validation.valid || validation.errors.length ≤ 1 then
    let kvs := dictSet kvs "session_id" (.str sid)
    let kvs := dictSet kvs "user_id" (.str uid)
    let kvs := dictSet kvs "family_id" (.str fid)
    let window1 := pyGet kvs "window_1" (.arr [])
    let windowStart : Option Json :=
      match window1 with
      | .arr xs => if xs.length ≥ 2 then some (xs.getD 0 .null) else none
      | _ => none
    let nm := pyGet kvs "name" (.str "")
    if isUpd then
      match update_appliance db sid kvs with
      | (true, db2) => ⟨.persistedUpdate, validation.errors, db2⟩
      | (false, _) =>
        ⟨.persistedNew, validation.errors,
          db ++ [save_appliance (nextId db) (nextCreated db) (popKey kvs "update")]⟩
    else if appliance_exists db sid nm windowStart then
      ⟨.skippedDuplicate, validation.errors, db⟩
    else
      ⟨.persistedNew, validation.errors,
        db ++ [save_appliance (nextId db) (nextCreated db) (popKey kvs "update")]⟩
  else ⟨.rejected, validation.errors, db⟩

/-! ## Conversation Normalizer (`main.py`: `ensure_alternating_messages`) -/

/-- One conversation turn. -/
structure Msg where
  role : String
  content : String
deriving DecidableEq, Repr

/-- Python `str.strip` on `String`. -/
def pyStripS (s : String) : String := String.mk (pyStrip s.toList)

/-- Merge consecutive same-role turns, concatenating contents with a newline
(`merged[-1]['content'] += "\n" + msg['content']`). -/
def mergeRuns : Msg → List Msg → List Msg
  | cur, [] => [cur]
  | cur, m :: rest =>
    if m.role == cur.role then
      mergeRuns ⟨cur.role, cur.content ++ "\n" ++ m.content⟩ rest
    else cur :: mergeRuns m rest

/-- Drop trailing assistant turns (`while merged and merged[-1]['role'] == 'assistant'`). -/
def dropTrailingAssistants (l : List Msg) : List Msg :=
  (l.reverse.dropWhile (fun m => m.role == "assistant")).reverse

/-- `expected_role = 'assistant' if expected_role == 'user' else 'user'`. -/
def flipRole (r : String) : String := if r == "user" then "assistant" else "user"

/-- The final repair loop: keep a turn matching the expected role, insert a
minimal synthetic turn of the missing role before a mismatched two-role
turn, and silently drop any other role. -/
def fixAlternation : String → List Msg → List Msg
  | _, [] => []
  | expected, m :: rest =>
    if m.role == expected then
      m :: fixAlternation (flipRole expected) rest
    else if m.role == "user" && expected == "assistant" then
      ⟨"assistant", "Okay, noted."⟩ :: m :: fixAlternation "assistant" rest
    else if m.role == "assistant" && expected == "user" then
      ⟨"user", "Continue."⟩ :: m :: fixAlternation "user" rest
    else fixAlternation expected rest

/-- `ensure_alternating_messages` (`main.py` lines 207-239). -/
def ensure_alternating_messages (msgs : List Msg) : List Msg :=
  let m1 := msgs.filter (fun m => !(pyStripS m.content == ""))
  let m2 := m1.dropWhile (fun m => m.role == "assistant")
  match m2 with
  | [] => []
  | h :: t =>
    let merged := mergeRuns h t
    let m3 := dropTrailingAssistants merged
    fixAlternation "user" m3

/-! ## Claims -/

/-- C3, evaluation at the failing input.  With zero persisted records the
analyzer's head-gap branch (`not occupied or occupied[0]['start'] > 60`)
*and* its tail-gap branch (`not occupied or occupied[-1]['end'] < 1380`)
both fire, each contributing a whole-day free interval: the report contains
*two* identical `[0, 1440]` free intervals, not the single one the claim
(and §4.5 of the spec, which also requires non-overlapping output) states.
The code is the slip; the claim is the intent. -/
theorem c3_zero_records_two_whole_day_gaps :
    (analyze_time_windows []).occupied = [] ∧
      (analyze_time_windows []).available.map (fun g => (g.start, g.stop)) =
        [(0, 1440), (0, 1440)] := by
  constructor <;> rfl

/-- The two records of the coverage-merge scenario of C7: windows
`[540, 600)` and `[600, 660)`. -/
def c7Records : List DBAppliance :=
  [⟨"Fan", some 540, some 600, none, none, none, none⟩,
   ⟨"TV", some 600, some 660, none, none, none, none⟩]

/-- C7, counterexample: the merged occupied output is *not* the single
interval `[540, 660)` the claim states. -/
theorem c7_counterexample :
    ¬ ((analyze_time_windows c7Records).occupied.map (fun p => (p.start, p.stop)) =
      [(540, 660)]) := by
  intro h
  have he : (analyze_time_windows c7Records).occupied.map (fun p => (p.start, p.stop)) =
      [(540, 690)] := by rfl
  rw [he] at h
  simp at h

/-- C7, amended: the two windows merge into exactly one occupied interval,
starting at 540 — but ending at 690, because a window whose end lies on a
bucket boundary also marks the following 30-minute bucket
(`range(start_block, min(end_block + 1, 48))` in the source). -/
theorem c7_amended_single_merged_interval :
    (analyze_time_windows c7Records).occupied.map (fun p => (p.start, p.stop)) =
      [(540, 690)] := by
  rfl

/-- C6, counterexample: the repair pipeline is not idempotent.  On `",,}"`
one pass removes only the second comma (the `re.sub` scan does not revisit
an emitted closer), a second pass removes the first: the two outputs differ. -/
theorem c6_counterexample :
    ¬ (clean_json_string (clean_json_string ",,\x7d") = clean_json_string ",,\x7d") := by
  decide

/-- C6, amended: re-running the repair pipeline is a byte-identical no-op on
already-clean input, i.e. on the fixed points of one pass (full idempotence
on arbitrary input fails, see the counterexample). -/
theorem c6_amended_noop_on_clean (x : String) (h : clean_json_string x = x) :
    clean_json_string (clean_json_string x) = clean_json_string x := by
  rw [h, h]

/-- Witness for C6 on a concrete already-clean input. -/
theorem c6_amended_noop_on_clean_witness :
    clean_json_string (clean_json_string "\x7b\"a\": 1\x7d") =
      clean_json_string "\x7b\"a\": 1\x7d" :=
  c6_amended_noop_on_clean "\x7b\"a\": 1\x7d" (by decide)

/-- A record whose `func_cycle` and `func_time` are the given values and
whose every other field is valid (used for the R4 claim). -/
def c4Data (c t : Nat) : List (String × Json) :=
  [("name", .str "fan"), ("power", natJ 50), ("func_time", natJ t),
   ("func_cycle", natJ c), ("window_1", .arr [natJ 360, natJ 480])]

/-- C4, counterexample: a record with `func_cycle = func_time = 60` passes
validation with no violation at all — the source checks
`func_cycle > func_time`, so equality does *not* fail R4, contradicting the
claim's strict `<`. -/
theorem c4_counterexample :
    (validate_appliance (c4Data 60 60)).errors = [] ∧
      (validate_appliance (c4Data 60 60)).valid = true := by
  constructor <;> rfl

/-- C4, amended: on an otherwise-valid record the cycle rule records a
violation exactly when `func_cycle` strictly exceeds `func_time`; equality
passes. -/
theorem c4_amended_violation_iff_gt (c t : Nat) (hc : 1 ≤ c) (ht : 1 ≤ t)
    (ht2 : t ≤ 1440) :
    (validate_appliance (c4Data c t)).errors =
      if c > t then ["func_cycle: cannot exceed func_time"] else [] := by
  have h3 : (t = 0 ∨ 1440 < t) = False := by
    simp
    omega
  have h4 : (c = 0) = False := by
    simp
    omega
  simp only [validate_appliance, applianceOfJson, c4Data, dictGet, intField,
    asInt, natJ, asStr, asIntList, windowError, optWindowField, asFloat,
    asBool, intJ]
  simp +decide [h3, h4, List.mapM.loop]
  simp +decide [asInt]
  by_cases hgt : t < c
  · simp [hgt]
  · simp [hgt]

/-- Witness for C4's amended theorem at `func_cycle = 60 > func_time = 59`. -/
theorem c4_amended_violation_iff_gt_witness :
    (validate_appliance (c4Data 60 59)).errors =
      ["func_cycle: cannot exceed func_time"] := by
  have h := c4_amended_violation_iff_gt 60 59 (by decide) (by decide) (by decide)
  simpa using h

/-- A session store holding one record named `Fan` with first-window start
360 (the duplicate/update scenario of the claims). -/
def c8Row : Row :=
  save_appliance 1 1
    [("session_id", .str "s"), ("name", .str "Fan"), ("power", natJ 60),
     ("func_time", natJ 120), ("window_1", .arr [natJ 360, natJ 480])]

/-- A fully valid non-update candidate named `fan` with first-window start
360 — a duplicate of `c8Row` up to case. -/
def c2DupData : List (String × Json) :=
  [("name", .str "fan"), ("power", natJ 60), ("func_time", natJ 120),
   ("window_1", .arr [natJ 360, natJ 480])]

/-- If validation succeeds the violation list is empty. -/
theorem validate_valid_errors (kvs : List (String × Json)) :
    (validate_appliance kvs).valid = true → (validate_appliance kvs).errors = [] := by
  unfold validate_appliance
  cases applianceOfJson kvs <;> simp

/-- C2, counterexample: a record with *zero* violations that duplicates an
already-persisted record is skipped, not persisted — so "persisted if and
only if at most one violation" fails in the `if` direction. -/
theorem c2_counterexample :
    (validate_appliance c2DupData).errors = [] ∧
      (process_extracted [c8Row] "s" "u" "f" c2DupData).outcome =
        SaveOutcome.skippedDuplicate ∧
      (process_extracted [c8Row] "s" "u" "f" c2DupData).db = [c8Row] :=
  ⟨rfl, rfl, rfl⟩

/-- C2, amended: the violation list is always handed back; two or more
violations force rejection with the store untouched; and a record is
persisted *only if* validation yields at most one violation (zero- or
one-violation records may still be skipped as duplicates rather than
persisted). -/
theorem c2_amended_persistence_needs_at_most_one_violation
    (db : List Row) (sid uid fid : String) (kvs : List (String × Json)) :
    (process_extracted db sid uid fid kvs).errors = (validate_appliance kvs).errors ∧
      (2 ≤ (validate_appliance kvs).errors.length →
        process_extracted db sid uid fid kvs =
          ⟨.rejected, (validate_appliance kvs).errors, db⟩) ∧
      ((process_extracted db sid uid fid kvs).outcome ≠ .rejected →
        (validate_appliance kvs).errors.length ≤ 1) := by
  have hcond : ∀ (_ : 2 ≤ (validate_appliance kvs).errors.length),
      ((validate_appliance kvs).valid ||
        decide ((validate_appliance kvs).errors.length ≤ 1)) = false := by
    intro h2
    have hv : (validate_appliance kvs).valid = false := by
      cases hval : (validate_appliance kvs).valid
      · rfl
      · have := validate_valid_errors kvs hval
        rw [this] at h2
        simp at h2
    rw [hv]
    simp
    omega
  refine ⟨?_, ?_, ?_⟩
  · simp only [process_extracted]
    repeat' split
    all_goals rfl
  · intro h2
    simp only [process_extracted]
    rw [if_neg]
    · simp [hcond h2]
  · intro h3
    by_cases hle : (validate_appliance kvs).errors.length ≤ 1
    · exact hle
    · exfalso
      apply h3
      have h2 : 2 ≤ (validate_appliance kvs).errors.length := by omega
      simp only [process_extracted]
      rw [if_neg]
      · simp [hcond h2]

/-- Witness for C2's amended theorem: a record with two violations (power 0,
daily minutes 0) is rejected and the store is unchanged. -/
theorem c2_amended_witness :
    process_extracted [c8Row] "s" "u" "f"
        [("name", .str "fan"), ("power", natJ 0), ("func_time", natJ 0),
         ("window_1", .arr [natJ 360, natJ 480])] =
      ⟨.rejected,
        (validate_appliance
          [("name", .str "fan"), ("power", natJ 0), ("func_time", natJ 0),
           ("window_1", .arr [natJ 360, natJ 480])]).errors, [c8Row]⟩ :=
  (c2_amended_persistence_needs_at_most_one_violation [c8Row] "s" "u" "f"
    [("name", .str "fan"), ("power", natJ 0), ("func_time", natJ 0),
     ("window_1", .arr [natJ 360, natJ 480])]).2.1 (by decide)

/-- An update candidate named `Fan` whose first window is the given pair. -/
def c8UpdData (a b : Nat) : List (String × Json) :=
  [("name", .str "Fan"), ("power", natJ 75), ("func_time", natJ 200),
   ("window_1", .arr [natJ a, natJ b]), ("update", .bool true)]

/-- The row the update candidate replaces `c8Row` with: every column comes
from the candidate (or its defaults), none from the old row. -/
def c8UpdRow (a b : Nat) : Row :=
  { appliance_id := 2, created_at := 2, session_id := .str "s", user_id := .str "u",
    family_id := .str "f", name := .str "Fan", number := natJ 1, power := natJ 75,
    func_time := natJ 200, num_windows := natJ 1, window_1_start := natJ a,
    window_1_end := natJ b, window_2_start := .null, window_2_end := .null,
    window_3_start := .null, window_3_end := .null, func_cycle := natJ 1,
    fixed := .str "no", occasional_use := .num ⟨false, 1, some [0]⟩,
    wd_we_type := natJ 2 }

/-- Whatever the window values, the update candidate has at most one
violation (only the `window_1` rule can fire), so it passes the lenient
acceptance gate. -/
theorem c8_upd_errors (a b : Nat) :
    (validate_appliance (c8UpdData a b)).errors.length ≤ 1 := by
  simp only [validate_appliance, applianceOfJson, c8UpdData, dictGet, intField,
    asInt, natJ, asStr, asIntList, windowError, optWindowField, asFloat, asBool]
  simp +decide [List.mapM.loop]
  simp +decide [asInt]
  split_ifs <;> simp

/-- C8: with `Fan`/window-360 persisted, (i) a non-update candidate `fan`
with window start 360 is skipped as a duplicate and nothing is persisted;
(ii) an update candidate `Fan` replaces the existing row — delete then
insert, full field replacement — *regardless* of its window values; and
(iii) the duplicate match is scoped to the session: the same candidate in
another session is persisted as new.  (Case-insensitivity is exercised by
the `fan`/`Fan` pair; the match key is `LOWER(TRIM(name))`.) -/
theorem c8_duplicate_skip_and_update_replace :
    ((process_extracted [c8Row] "s" "u" "f" c2DupData).outcome =
        SaveOutcome.skippedDuplicate ∧
      (process_extracted [c8Row] "s" "u" "f" c2DupData).db = [c8Row]) ∧
    (∀ a b : Nat,
      (process_extracted [c8Row] "s" "u" "f" (c8UpdData a b)).outcome =
          SaveOutcome.persistedUpdate ∧
        (process_extracted [c8Row] "s" "u" "f" (c8UpdData a b)).db =
          [c8UpdRow a b]) ∧
    (process_extracted [c8Row] "s2" "u" "f" c2DupData).outcome =
      SaveOutcome.persistedNew := by
  refine ⟨⟨rfl, rfl⟩, ?_, rfl⟩
  intro a b
  have hc : ((validate_appliance (c8UpdData a b)).valid ||
      decide ((validate_appliance (c8UpdData a b)).errors.length ≤ 1)) = true := by
    have := c8_upd_errors a b
    simp [this]
  constructor
  · simp only [process_extracted]
    rw [if_pos hc]
    rfl
  · simp only [process_extracted]
    rw [if_pos hc]
    rfl

/-- C10: whenever the salvage extractor recovers `power` (or `func_time`)
with value `0`, the whole salvage returns nothing: the minimum-field check
`result.get('name') and result.get('power') and result.get('func_time')`
tests truthiness, and a recovered `0` is falsy, counting as absent. -/
theorem c10_salvaged_zero_counts_as_absent (raw : List Char)
    (h : searchPos (matchNumFieldAt "power".toList) raw = some 0 ∨
      searchPos (matchNumFieldAt "func_time".toList) raw = some 0) :
    try_manual_extraction raw = none := by
  unfold try_manual_extraction
  cases hnm : searchPos (matchStrFieldAt "name".toList) raw with
  | none => simp
  | some nm =>
    simp only
    split
    · rcases h with h | h
      · have h2 : searchPos (matchNumFieldAt ['p', 'o', 'w', 'e', 'r']) raw = some 0 := h
        simp [h2]
      · have h2 : searchPos
            (matchNumFieldAt ['f', 'u', 'n', 'c', '_', 't', 'i', 'm', 'e']) raw =
              some 0 := h
        simp [h2]
    · rfl

/-- Witness for C10 on a block whose name and daily minutes are present but
whose power was recovered as `0`. -/
theorem c10_salvaged_zero_counts_as_absent_witness :
    try_manual_extraction
      ("\"name\": \"TV\", \"power\": 0, \"func_time\": 120".toList) = none :=
  c10_salvaged_zero_counts_as_absent _ (Or.inl (by decide))

/-- C1: the extractor is total — it is a function `String → List Json` in
this embedding, every fallible stage returning `Option` rather than
raising — and it appends at most one record per candidate block it
considers: its output is never longer than the candidate-block list. -/
theorem c1_at_most_one_record_per_block (text : String) :
    (extract_all_json text).length ≤ (candidateBlocks text).length := by
  unfold extract_all_json candidateBlocks
  by_cases hcs : text.data = []
  · simp [hcs]
  · by_cases hms : findAllBetween text.data = []
    · cases htc : truncatedCapture text.data with
      | none =>
        simp [hcs, hms, htc]
        exact le_trans (List.length_filterMap_le _ _) (by simp)
      | some raw0 =>
        by_cases hstrip : pyStrip raw0 = []
        · simp [hcs, hms, htc, hstrip]
          exact le_trans (List.length_filterMap_le _ _) (by simp)
        · cases hfix : try_fix_truncated_json (pyStrip raw0) with
          | some j => simp [hcs, hms, htc, hstrip, hfix]
          | none =>
            cases hman : try_manual_extraction (pyStrip raw0) with
            | some j => simp [hcs, hms, htc, hstrip, hfix, hman]
            | none =>
              simp [hcs, hms, htc, hstrip, hfix, hman]
              exact le_trans (List.length_filterMap_le _ _) (by simp)
    · simp [hcs, hms]
      exact List.length_filterMap_le _ _

/-! ### C9: the Conversation Normalizer -/


def alternatingFrom : String → List Msg → Bool
  | _, [] => true
  | r, m :: rest => m.role == r && alternatingFrom (flipRole r) rest

def wellFormedConv (l : List Msg) : Bool :=
  alternatingFrom "user" l && (l.getLastD ⟨"user", "_"⟩).role == "user" &&
    l.all (fun m => !(pyStripS m.content == ""))

def adjDistinct : List Msg → Bool
  | [] => true
  | [_] => true
  | a :: b :: t => !(a.role == b.role) && adjDistinct (b :: t)

theorem dropWhile_decomp {α : Type} (p : α → Bool) :
    ∀ l : List α, ∃ t, l = t ++ l.dropWhile p ∧ ∀ x ∈ t, p x = true := by
  intro l
  induction l with
  | nil => exact ⟨[], by simp⟩
  | cons c cs ih =>
    by_cases hp : p c = true
    · obtain ⟨t, ht1, ht2⟩ := ih
      refine ⟨c :: t, ?_, ?_⟩
      · simp [List.dropWhile, hp]
        exact ht1
      · intro x hx
        rcases List.mem_cons.mp hx with h | h
        · rw [h]; exact hp
        · exact ht2 x h
    · refine ⟨[], ?_, by simp⟩
      simp [List.dropWhile, hp]

theorem dropWhile_head_false {α : Type} (p : α → Bool) :
    ∀ (l : List α) (x : α) (xs : List α), l.dropWhile p = x :: xs → p x = false := by
  intro l
  induction l with
  | nil => intro x xs h; simp [List.dropWhile] at h
  | cons c cs ih =>
    intro x xs h
    by_cases hp : p c = true
    · rw [List.dropWhile_cons_of_pos hp] at h
      exact ih x xs h
    · rw [List.dropWhile_cons_of_neg hp] at h
      cases h
      simpa using hp

theorem pyStrip_eq_nil_iff (cs : List Char) :
    pyStrip cs = [] ↔ ∀ c ∈ cs, wsChar c = true := by
  unfold pyStrip
  simp [List.dropWhile_eq_nil_iff]
  constructor
  · intro h c hc
    obtain ⟨t, ht1, ht2⟩ := dropWhile_decomp wsChar cs
    rw [ht1] at hc
    rcases List.mem_append.mp hc with hm | hm
    · exact ht2 c hm
    · exact h c hm
  · intro h c hc
    exact h c ((List.dropWhile_sublist _).subset hc)

theorem pyStripS_eq_empty_iff (s : String) :
    pyStripS s = "" ↔ ∀ c ∈ s.data, wsChar c = true := by
  unfold pyStripS
  rw [String.ext_iff]
  show pyStrip s.toList = "".data ↔ _
  show pyStrip s.data = [] ↔ _
  exact pyStrip_eq_nil_iff s.data

theorem strip_ne_empty_append (a b : String) (h : ¬(pyStripS a = "")) :
    ¬(pyStripS (a ++ "\n" ++ b) = "") := by
  intro hs
  apply h
  rw [pyStripS_eq_empty_iff] at hs ⊢
  intro c hc
  apply hs
  show c ∈ ((a ++ "\n") ++ b).data
  rw [String.data_append, String.data_append]
  exact List.mem_append_left _ (List.mem_append_left _ hc)

theorem mergeRuns_head :
    ∀ (rest : List Msg) (cur : Msg), ∃ c2 t2,
      mergeRuns cur rest = c2 :: t2 ∧ c2.role = cur.role := by
  intro rest
  induction rest with
  | nil => intro cur; exact ⟨cur, [], rfl, rfl⟩
  | cons m t ih =>
    intro cur
    by_cases hr : (m.role == cur.role) = true
    · obtain ⟨c2, t2, h1, h2⟩ := ih ⟨cur.role, cur.content ++ "\n" ++ m.content⟩
      exact ⟨c2, t2, by simp [mergeRuns, hr, h1], h2⟩
    · exact ⟨cur, mergeRuns m t, by simp [mergeRuns, hr], rfl⟩

theorem mergeRuns_adjDistinct :
    ∀ (rest : List Msg) (cur : Msg), adjDistinct (mergeRuns cur rest) = true := by
  intro rest
  induction rest with
  | nil => intro cur; rfl
  | cons m t ih =>
    intro cur
    by_cases hr : (m.role == cur.role) = true
    · simp only [mergeRuns, hr, if_true]
      exact ih _
    · simp only [mergeRuns, hr, if_false]
      obtain ⟨c2, t2, h1, h2⟩ := mergeRuns_head t m
      rw [h1]
      show (!(cur.role == c2.role) && adjDistinct (c2 :: t2)) = true
      rw [← h1]
      simp [h2, ih m]
      intro hcontra
      rw [hcontra] at hr
      simp at hr

theorem mergeRuns_roles (P : String → Prop) :
    ∀ (rest : List Msg) (cur : Msg), P cur.role → (∀ x ∈ rest, P x.role) →
      ∀ x ∈ mergeRuns cur rest, P x.role := by
  intro rest
  induction rest with
  | nil =>
    intro cur hc _ x hx
    simp [mergeRuns] at hx
    rw [hx]; exact hc
  | cons m t ih =>
    intro cur hc hr x hx
    by_cases hrole : (m.role == cur.role) = true
    · simp only [mergeRuns, hrole, if_true] at hx
      exact ih ⟨cur.role, cur.content ++ "\n" ++ m.content⟩ hc
        (fun y hy => hr y (List.mem_cons_of_mem _ hy)) x hx
    · simp only [mergeRuns, hrole, if_false] at hx
      rcases List.mem_cons.mp hx with h | h
      · rw [h]; exact hc
      · exact ih m (hr m (List.mem_cons_self _ _))
          (fun y hy => hr y (List.mem_cons_of_mem _ hy)) x h

theorem mergeRuns_contents :
    ∀ (rest : List Msg) (cur : Msg), ¬(pyStripS cur.content = "") →
      (∀ x ∈ rest, ¬(pyStripS x.content = "")) →
      ∀ x ∈ mergeRuns cur rest, ¬(pyStripS x.content = "") := by
  intro rest
  induction rest with
  | nil =>
    intro cur hc _ x hx
    simp [mergeRuns] at hx
    rw [hx]; exact hc
  | cons m t ih =>
    intro cur hc hr x hx
    by_cases hrole : (m.role == cur.role) = true
    · simp only [mergeRuns, hrole, if_true] at hx
      exact ih ⟨cur.role, cur.content ++ "\n" ++ m.content⟩
        (strip_ne_empty_append _ _ hc)
        (fun y hy => hr y (List.mem_cons_of_mem _ hy)) x hx
    · simp only [mergeRuns, hrole, if_false] at hx
      rcases List.mem_cons.mp hx with h | h
      · rw [h]; exact hc
      · exact ih m (hr m (List.mem_cons_self _ _))
          (fun y hy => hr y (List.mem_cons_of_mem _ hy)) x h

theorem alternatingFrom_of_adjDistinct :
    ∀ (l : List Msg), adjDistinct l = true →
      (∀ x ∈ l, x.role = "user" ∨ x.role = "assistant") →
      ∀ m0 ms0, l = m0 :: ms0 → alternatingFrom m0.role l = true := by
  intro l
  induction l with
  | nil => intro _ _ m0 ms0 h; simp at h
  | cons m ms ih =>
    intro hadj hroles m0 ms0 heq
    injection heq with e1 _
    subst e1
    simp only [alternatingFrom, Bool.and_eq_true]
    refine ⟨by simp, ?_⟩
    cases ms with
    | nil => rfl
    | cons m2 t =>
      have hadj2 : adjDistinct (m2 :: t) = true := by
        simp only [adjDistinct, Bool.and_eq_true] at hadj
        exact hadj.2
      have hne : ¬(m.role = m2.role) := by
        simp only [adjDistinct, Bool.and_eq_true] at hadj
        simpa using hadj.1
      have ih2 := ih hadj2 (fun x hx => hroles x (List.mem_cons_of_mem _ hx)) m2 t rfl
      have h1 := hroles m (List.mem_cons_self _ _)
      have h2 := hroles m2 (List.mem_cons_of_mem _ (List.mem_cons_self _ _))
      have hflip : flipRole m.role = m2.role := by
        rcases h1 with h1 | h1 <;> rcases h2 with h2 | h2
        · exact absurd (h1.trans h2.symm) hne
        · rw [h1, h2]; simp [flipRole]
        · rw [h1, h2]; simp [flipRole]
        · exact absurd (h1.trans h2.symm) hne
      rw [hflip]
      exact ih2

theorem fixAlternation_id :
    ∀ (l : List Msg) (r : String), alternatingFrom r l = true →
      (r = "user" ∨ r = "assistant") → fixAlternation r l = l := by
  intro l
  induction l with
  | nil => intro r _ _; rfl
  | cons m ms ih =>
    intro r h hr
    simp only [alternatingFrom, Bool.and_eq_true] at h
    simp only [fixAlternation, h.1, if_true]
    rw [ih (flipRole r) h.2]
    rcases hr with h2 | h2 <;> rw [h2] <;> simp [flipRole]

theorem alternatingFrom_prefix :
    ∀ (p t : List Msg) (r : String), alternatingFrom r (p ++ t) = true →
      alternatingFrom r p = true := by
  intro p
  induction p with
  | nil => intro t r _; rfl
  | cons m ms ih =>
    intro t r h
    simp only [List.cons_append, alternatingFrom, Bool.and_eq_true] at h ⊢
    exact ⟨h.1, ih t (flipRole r) h.2⟩

theorem getLastD_mem {α : Type} (d : α) :
    ∀ (l : List α), l ≠ [] → l.getLastD d ∈ l := by
  intro l
  induction l with
  | nil => intro h; exact absurd rfl h
  | cons a as ih =>
    intro _
    cases has : as with
    | nil => simp
    | cons b bs =>
      have := ih (by simp [has])
      rw [has] at this
      have heq : (a :: b :: bs).getLastD d = (b :: bs).getLastD d := by
        simp [List.getLastD]
      rw [heq]
      exact List.mem_cons_of_mem _ this

theorem dropTrailing_decomp (l : List Msg) :
    l = dropTrailingAssistants l ++
        (l.reverse.takeWhile (fun m => m.role == "assistant")).reverse := by
  unfold dropTrailingAssistants
  have hsplit : l.reverse.takeWhile (fun m => m.role == "assistant") ++
      l.reverse.dropWhile (fun m => m.role == "assistant") = l.reverse :=
    List.takeWhile_append_dropWhile _ _
  calc l = l.reverse.reverse := (List.reverse_reverse l).symm
    _ = (l.reverse.takeWhile (fun m => m.role == "assistant") ++
          l.reverse.dropWhile (fun m => m.role == "assistant")).reverse := by
        rw [hsplit]
    _ = (l.reverse.dropWhile (fun m => m.role == "assistant")).reverse ++
          (l.reverse.takeWhile (fun m => m.role == "assistant")).reverse := by
        rw [List.reverse_append]

theorem dropTrailing_last (l : List Msg) (dflt : Msg) :
    dropTrailingAssistants l = [] ∨
      ¬(((dropTrailingAssistants l).getLastD dflt).role = "assistant") := by
  unfold dropTrailingAssistants
  cases hd : l.reverse.dropWhile (fun m => m.role == "assistant") with
  | nil => left; simp [hd]
  | cons x xs =>
    right
    have hx := dropWhile_head_false _ _ x xs hd
    have heq : ((x :: xs).reverse).getLastD dflt = x := by
      rw [List.getLastD_eq_getLast?, List.getLast?_reverse]
      rfl
    rw [heq]
    simpa using hx

/-- C9: for every turn sequence over the two conversation roles
(`user`/`assistant`, the solicitor and responder of the spec), the
normalizer's output is empty or: begins with a user turn, strictly
alternates, ends with a user turn, and contains no empty-content turns
(`wellFormedConv` holds for the empty output trivially). -/
theorem c9_normalizer_output_well_formed (msgs : List Msg)
    (hroles : ∀ m ∈ msgs, m.role = "user" ∨ m.role = "assistant") :
    wellFormedConv (ensure_alternating_messages msgs) = true := by
  unfold ensure_alternating_messages
  have h1roles : ∀ m ∈ msgs.filter (fun m => !(pyStripS m.content == "")),
      m.role = "user" ∨ m.role = "assistant" :=
    fun m hm => hroles m (List.mem_of_mem_filter hm)
  have h1ink : ∀ m ∈ msgs.filter (fun m => !(pyStripS m.content == "")),
      ¬(pyStripS m.content = "") := by
    intro m hm
    have := List.of_mem_filter hm
    simpa using this
  cases hm2 : (msgs.filter (fun m => !(pyStripS m.content == ""))).dropWhile
      (fun m => m.role == "assistant") with
  | nil =>
    simp only [hm2]
    rfl
  | cons h t =>
    simp only [hm2]
    have hms : ∀ x ∈ h :: t, x ∈ msgs.filter (fun m => !(pyStripS m.content == "")) := by
      intro x hx
      rw [← hm2] at hx
      exact (List.dropWhile_sublist _).subset hx
    have hhead_role : h.role = "user" := by
      have hfalse : (h.role == "assistant") = false :=
        dropWhile_head_false (fun m => m.role == "assistant") _ h t hm2
      rcases h1roles h (hms h (List.mem_cons_self _ _)) with h2 | h2
      · exact h2
      · rw [h2] at hfalse; simp at hfalse
    obtain ⟨c2, t2, hmerge, hc2role⟩ := mergeRuns_head t h
    have hmadj := mergeRuns_adjDistinct t h
    have hmroles : ∀ x ∈ mergeRuns h t, x.role = "user" ∨ x.role = "assistant" :=
      mergeRuns_roles (fun r => r = "user" ∨ r = "assistant") t h
        (h1roles h (hms h (List.mem_cons_self _ _)))
        (fun y hy => h1roles y (hms y (List.mem_cons_of_mem _ hy)))
    have hmink : ∀ x ∈ mergeRuns h t, ¬(pyStripS x.content = "") :=
      mergeRuns_contents t h (h1ink h (hms h (List.mem_cons_self _ _)))
        (fun y hy => h1ink y (hms y (List.mem_cons_of_mem _ hy)))
    have hmalt : alternatingFrom "user" (mergeRuns h t) = true := by
      have := alternatingFrom_of_adjDistinct (mergeRuns h t) hmadj hmroles c2 t2 hmerge
      rw [hc2role, hhead_role] at this
      exact this
    have hdecomp := dropTrailing_decomp (mergeRuns h t)
    have hm3sub : ∀ x ∈ dropTrailingAssistants (mergeRuns h t), x ∈ mergeRuns h t := by
      intro x hx
      rw [hdecomp]
      exact List.mem_append_left _ hx
    have hm3alt : alternatingFrom "user" (dropTrailingAssistants (mergeRuns h t)) = true := by
      apply alternatingFrom_prefix _ _ _ (hdecomp ▸ hmalt)
    rw [fixAlternation_id _ _ hm3alt (Or.inl rfl)]
    unfold wellFormedConv
    rw [hm3alt]
    have hlast : ((dropTrailingAssistants (mergeRuns h t)).getLastD
        ⟨"user", "_"⟩).role == "user" := by
      rcases dropTrailing_last (mergeRuns h t) ⟨"user", "_"⟩ with hnil | hne
      · rw [hnil]; rfl
      · by_cases hnil2 : dropTrailingAssistants (mergeRuns h t) = []
        · rw [hnil2]; rfl
        · have hmem := getLastD_mem (⟨"user", "_"⟩ : Msg) _ hnil2
          rcases hmroles _ (hm3sub _ hmem) with h2 | h2
          · rw [h2]
            rfl
          · exact absurd h2 hne
    rw [hlast]
    have hink : (dropTrailingAssistants (mergeRuns h t)).all
        (fun m => !(pyStripS m.content == "")) = true := by
      rw [List.all_eq_true]
      intro x hx
      have := hmink x (hm3sub x hx)
      simpa using this
    rw [hink]
    rfl

/-- Witness for C9 on a concrete five-turn conversation. -/
theorem c9_normalizer_output_well_formed_witness :
    wellFormedConv (ensure_alternating_messages
      [⟨"assistant", "hi"⟩, ⟨"user", "a"⟩, ⟨"user", "b"⟩,
       ⟨"assistant", " "⟩, ⟨"user", "c"⟩, ⟨"assistant", "d"⟩]) = true :=
  c9_normalizer_output_well_formed _ (by decide)

/-! ## Serialization round trip (C5)

A validated record is serialized by `serializeBlock` (the dumped JSON object
between the pipeline's markers); the development below proves that the full
extractor parses that text back to the same record, and exhibits the failure
on names the repair pipeline rewrites. -/

theorem digitChar_ofNat (d : Nat) (h : d < 10) :
    digitChar (Char.ofNat (48 + d)) = true := by
  interval_cases d <;> decide

theorem toNat_digit (d : Nat) (h : d < 10) :
    (Char.ofNat (48 + d)).toNat - 48 = d := by
  interval_cases d <;> decide

theorem digit_ne_zero_char (d : Nat) (h1 : 1 ≤ d) (h2 : d < 10) :
    ¬(Char.ofNat (48 + d) = '0') := by
  interval_cases d <;> decide

theorem digitsVal_append_digit (xs : List Char) (c : Char) :
    digitsVal (xs ++ [c]) = 10 * digitsVal xs + (c.toNat - 48) := by
  unfold digitsVal
  rw [List.foldl_append]
  simp
  omega

theorem natPrintF_spec :
    ∀ n f, n < f →
      ((natPrintF f n).all digitChar = true) ∧ natPrintF f n ≠ [] ∧
        digitsVal (natPrintF f n) = n ∧
        (1 ≤ n → ¬((natPrintF f n).headD ' ' = '0')) := by
  intro n
  induction n using Nat.strong_induction_on with
  | _ n ih =>
    intro f hf
    match f, hf with
    | g + 1, hf =>
      by_cases h10 : n < 10
      · have : natPrintF (g + 1) n = [Char.ofNat (48 + n)] := by
          simp [natPrintF, h10]
        rw [this]
        refine ⟨by simp [digitChar_ofNat n h10], by simp, ?_, ?_⟩
        · show digitsVal ([] ++ [Char.ofNat (48 + n)]) = n
          rw [digitsVal_append_digit]
          simp [digitsVal]
          exact toNat_digit n h10
        · intro h1
          simpa using digit_ne_zero_char n h1 h10
      · have hstep : natPrintF (g + 1) n =
            natPrintF g (n / 10) ++ [Char.ofNat (48 + n % 10)] := by
          simp [natPrintF, h10]
        have hdivlt : n / 10 < n := Nat.div_lt_self (by omega) (by omega)
        have hdivg : n / 10 < g := by omega
        obtain ⟨ha, hne, hval, hhead⟩ := ih (n / 10) hdivlt g hdivg
        rw [hstep]
        refine ⟨?_, by simp, ?_, ?_⟩
        · rw [List.all_append]
          simp [List.all_eq_true] at ha ⊢
          exact ⟨ha, by simpa using digitChar_ofNat (n % 10) (by omega)⟩
        · rw [digitsVal_append_digit, hval, toNat_digit (n % 10) (by omega)]
          omega
        · intro _
          cases hpp : natPrintF g (n / 10) with
          | nil => exact absurd hpp hne
          | cons a as =>
            have : 1 ≤ n / 10 := by omega
            have hh := hhead this
            rw [hpp] at hh
            simpa [hpp] using hh

theorem natPrint_spec (n : Nat) :
    ((natPrint n).all digitChar = true) ∧ natPrint n ≠ [] ∧
      digitsVal (natPrint n) = n ∧
      (1 ≤ n → ¬((natPrint n).headD ' ' = '0')) :=
  natPrintF_spec n (n + 1) (by omega)

theorem takeWhile_append_all (p : Char → Bool) :
    ∀ (xs ys : List Char), (∀ x ∈ xs, p x = true) →
      (match ys with
       | [] => True
       | y :: _ => p y = false) →
      (xs ++ ys).takeWhile p = xs := by
  intro xs
  induction xs with
  | nil =>
    intro ys _ hys
    cases ys with
    | nil => rfl
    | cons y t =>
      have h : p y = false := by simpa using hys
      simp [List.takeWhile_cons, h]
  | cons x xt ih =>
    intro ys hxs hys
    have hx : p x = true := hxs x (List.mem_cons_self _ _)
    simp only [List.cons_append, List.takeWhile_cons, hx, if_true]
    rw [ih ys (fun a ha => hxs a (List.mem_cons_of_mem _ ha)) hys]


/-- Characters that print into a JSON string unescaped and parse straight
back: printable, not the quote, not the backslash. -/
def strSafe (c : Char) : Bool := 32 ≤ c.toNat && !(c = dquote) && !(c = '\\')

/-- Does the text not continue a numeric literal (so a number parse stops
exactly at the printed digits)? -/
def numSepOk : List Char → Bool
  | [] => true
  | c :: _ => !(digitChar c || c = '.' || c = 'e' || c = 'E')

theorem escChar_safe (c : Char) (h : strSafe c = true) : escChar c = [c] := by
  unfold strSafe at h
  unfold escChar
  simp at h
  rw [if_neg (by simpa using h.1.2), if_neg (by simpa using h.2)]

theorem flatten_escChar :
    ∀ xs : List Char, (∀ c ∈ xs, strSafe c = true) → (xs.map escChar).flatten = xs := by
  intro xs
  induction xs with
  | nil => intro _; rfl
  | cons c cs ih =>
    intro h
    simp only [List.map_cons, List.flatten_cons]
    rw [escChar_safe c (h c (List.mem_cons_self _ _)),
      ih (fun x hx => h x (List.mem_cons_of_mem _ hx))]
    rfl

theorem printStr_safe (s : String) (h : ∀ c ∈ s.data, strSafe c = true) :
    printStr s = dquote :: s.data ++ [dquote] := by
  unfold printStr
  rw [show s.toList = s.data from rfl, flatten_escChar s.data h]

theorem parseStrBodyF_roundtrip :
    ∀ (xs : List Char) (f : Nat) (rest : List Char),
      (∀ c ∈ xs, strSafe c = true) → xs.length < f →
      parseStrBodyF f (xs ++ dquote :: rest) = some (xs, rest) := by
  intro xs
  induction xs with
  | nil =>
    intro f rest _ hf
    match f, hf with
    | g + 1, _ =>
      show parseStrBodyF (g + 1) (dquote :: rest) = some ([], rest)
      simp [parseStrBodyF]
  | cons x xt ih =>
    intro f rest hsafe hf
    match f, hf with
    | g + 1, hf =>
      have hx := hsafe x (List.mem_cons_self _ _)
      unfold strSafe at hx
      simp at hx
      show parseStrBodyF (g + 1) (x :: (xt ++ dquote :: rest)) = some (x :: xt, rest)
      unfold parseStrBodyF
      rw [if_neg (by simpa using hx.1.2), if_neg (by simpa using hx.2),
        if_neg (by omega)]
      rw [ih g rest (fun c hc => hsafe c (List.mem_cons_of_mem _ hc)) (by simp at hf ⊢; omega)]
      rfl

theorem parseStrBody_roundtrip (xs rest : List Char)
    (hsafe : ∀ c ∈ xs, strSafe c = true) :
    parseStrBody (xs ++ dquote :: rest) = some (xs, rest) := by
  unfold parseStrBody
  exact parseStrBodyF_roundtrip xs _ rest hsafe (by simp; omega)

theorem skipWsJ_nonws (c : Char) (cs : List Char) (h : jsonWs c = false) :
    skipWsJ (c :: cs) = c :: cs := by
  simp [skipWsJ, List.dropWhile_cons, h]

/-- Printed digit characters. -/
def digitChars (ds : List Nat) : List Char := ds.map (fun d => Char.ofNat (48 + d))

theorem digitChars_all_digit (ds : List Nat) (h : ∀ d ∈ ds, d < 10) :
    ∀ c ∈ digitChars ds, digitChar c = true := by
  intro c hc
  unfold digitChars at hc
  obtain ⟨d, hd, rfl⟩ := List.mem_map.mp hc
  exact digitChar_ofNat d (h d hd)

theorem digitChars_roundtrip (ds : List Nat) (h : ∀ d ∈ ds, d < 10) :
    (digitChars ds).map (fun c => c.toNat - 48) = ds := by
  unfold digitChars
  rw [List.map_map]
  conv_rhs => rw [← List.map_id ds]
  apply List.map_congr_left
  intro d hd
  exact toNat_digit d (h d hd)

theorem digitChar_ne (c : Char) (h : digitChar c = true) :
    c ≠ '-' ∧ c ≠ '.' ∧ c ≠ 'e' ∧ c ≠ 'E' := by
  unfold digitChar at h
  simp at h
  refine ⟨?_, ?_, ?_, ?_⟩ <;> (intro he; rw [he] at h; revert h; decide)

theorem numSepOk_head (c : Char) (t : List Char) (h : numSepOk (c :: t) = true) :
    digitChar c = false ∧ c ≠ '.' ∧ c ≠ 'e' ∧ c ≠ 'E' := by
  unfold numSepOk at h
  simp at h
  obtain ⟨⟨⟨a, b⟩, c2⟩, d⟩ := h
  exact ⟨a, b, c2, d⟩

theorem natPrint_head_digit (ip : Nat) :
    ∃ d ds, natPrint ip = d :: ds ∧ digitChar d = true := by
  obtain ⟨hall, hne, _, _⟩ := natPrint_spec ip
  cases hnp : natPrint ip with
  | nil => exact absurd hnp hne
  | cons d ds =>
    refine ⟨d, ds, rfl, ?_⟩
    rw [hnp] at hall
    simp [List.all_eq_true] at hall
    exact hall.1

theorem parseNum_int (ip : Nat) (rest : List Char) (hsep : numSepOk rest = true) :
    parseNum (natPrint ip ++ rest) = some (⟨false, ip, none⟩, rest) := by
  obtain ⟨hall, hne, hval, hhead⟩ := natPrint_spec ip
  obtain ⟨d0, ds0, hnp, hd0⟩ := natPrint_head_digit ip
  have htake : (natPrint ip ++ rest).takeWhile digitChar = natPrint ip := by
    apply takeWhile_append_all
    · intro x hx
      simp [List.all_eq_true] at hall
      exact hall x hx
    · cases rest with
      | nil => trivial
      | cons c t => exact (numSepOk_head c t hsep).1
  have hmatch : (match natPrint ip ++ rest with
      | '-' :: t => (true, t)
      | x => (false, natPrint ip ++ rest)) = (false, natPrint ip ++ rest) := by
    rw [hnp]
    simp only [List.cons_append]
    split
    · rename_i t heq
      injection heq with h1 _
      exfalso
      rw [h1] at hd0
      revert hd0
      decide
    · rfl
  unfold parseNum
  rw [hmatch]
  have hlz : (decide ((natPrint ip).length > 1) && decide ((natPrint ip).headD ' ' = '0')) = false := by
    by_cases hip : ip = 0
    · subst hip
      rfl
    · have hh := hhead (by omega)
      have hh2 : ¬ d0 = '0' := by
        rw [hnp] at hh
        simpa using hh
      rw [hnp]
      simp [hh2]
  simp only [htake, hlz]
  rw [if_neg (by simpa using hne)]
  simp only [Bool.false_eq_true, if_false]
  rw [List.drop_left]
  simp only [hval]
  cases rest with
  | nil => rfl
  | cons c t =>
    obtain ⟨_, hdot, he, hE⟩ := numSepOk_head c t hsep
    split
    · rename_i t2 heq
      injection heq with h1 _
      exact absurd h1 hdot
    · rename_i e t2 heq
      injection heq with h1 _
      subst h1
      rw [if_neg (by simp [he, hE])]
    · rename_i heq
      cases heq


theorem parseNum_dec (ip : Nat) (fs : List Nat) (rest : List Char)
    (hfs : fs ≠ []) (hlt : ∀ d ∈ fs, d < 10) (hsep : numSepOk rest = true) :
    parseNum (natPrint ip ++ ('.' :: (digitChars fs ++ rest))) =
      some (⟨false, ip, some fs⟩, rest) := by
  obtain ⟨hall, hne, hval, hhead⟩ := natPrint_spec ip
  obtain ⟨d0, ds0, hnp, hd0⟩ := natPrint_head_digit ip
  have htake : (natPrint ip ++ ('.' :: (digitChars fs ++ rest))).takeWhile digitChar
      = natPrint ip := by
    apply takeWhile_append_all
    · intro x hx
      simp [List.all_eq_true] at hall
      exact hall x hx
    · show digitChar '.' = false
      decide
  have hmatch : (match natPrint ip ++ ('.' :: (digitChars fs ++ rest)) with
      | '-' :: t => (true, t)
      | x => (false, natPrint ip ++ ('.' :: (digitChars fs ++ rest))))
      = (false, natPrint ip ++ ('.' :: (digitChars fs ++ rest))) := by
    rw [hnp]
    simp only [List.cons_append]
    split
    · rename_i t heq
      injection heq with h1 _
      exfalso
      rw [h1] at hd0
      revert hd0
      decide
    · rfl
  unfold parseNum
  rw [hmatch]
  have hlz : (decide ((natPrint ip).length > 1) && decide ((natPrint ip).headD ' ' = '0')) = false := by
    by_cases hip : ip = 0
    · subst hip
      rfl
    · have hh := hhead (by omega)
      have hh2 : ¬ d0 = '0' := by
        rw [hnp] at hh
        simpa using hh
      rw [hnp]
      simp [hh2]
  simp only [htake, hlz]
  rw [if_neg (by simpa using hne)]
  simp only [Bool.false_eq_true, if_false]
  rw [List.drop_left]
  have htake2 : (digitChars fs ++ rest).takeWhile digitChar = digitChars fs := by
    apply takeWhile_append_all
    · exact digitChars_all_digit fs hlt
    · cases rest with
      | nil => trivial
      | cons c t => exact (numSepOk_head c t hsep).1
  have hfs2 : digitChars fs ≠ [] := by
    unfold digitChars
    simpa using hfs
  simp only [htake2]
  rw [if_neg hfs2]
  rw [List.drop_left]
  simp only [hval, digitChars_roundtrip fs hlt]
  cases rest with
  | nil => rfl
  | cons c t =>
    obtain ⟨_, _, he, hE⟩ := numSepOk_head c t hsep
    show (if (decide (c = 'e') || decide (c = 'E')) = true then none
        else some ((⟨false, ip, some fs⟩ : JNum), c :: t)) = some ((⟨false, ip, some fs⟩ : JNum), c :: t)
    rw [if_neg (by simp [he, hE])]

theorem digitChar_toNat (c : Char) (h : digitChar c = true) :
    48 ≤ c.toNat ∧ c.toNat ≤ 57 := by
  simp [digitChar, Char.le_def] at h
  exact ⟨h.1, h.2⟩

theorem digit_head_facts (c : Char) (h : digitChar c = true) :
    c ≠ dquote ∧ c ≠ lbrace ∧ c ≠ '[' ∧ c ≠ 't' ∧ c ≠ 'f' ∧ c ≠ 'n' ∧
      jsonWs c = false := by
  refine ⟨?_, ?_, ?_, ?_, ?_, ?_, ?_⟩
  · intro hc; rw [hc] at h; exact absurd h (by decide)
  · intro hc; rw [hc] at h; exact absurd h (by decide)
  · intro hc; rw [hc] at h; exact absurd h (by decide)
  · intro hc; rw [hc] at h; exact absurd h (by decide)
  · intro hc; rw [hc] at h; exact absurd h (by decide)
  · intro hc; rw [hc] at h; exact absurd h (by decide)
  · cases hw : jsonWs c
    · rfl
    · exfalso
      simp [jsonWs] at hw
      rcases hw with ((hw | hw) | hw) | hw <;>
        first
        | exact absurd h (by decide)
        | (rw [hw] at h; exact absurd h (by decide))

theorem startsWithL_ne_head (p c : Char) (ps cs : List Char) (h : p ≠ c) :
    startsWithL (p :: ps) (c :: cs) = false := by
  simp [startsWithL, h]

theorem startsWithL_prefix : ∀ (p cs : List Char), startsWithL p (p ++ cs) = true := by
  intro p
  induction p with
  | nil => intro cs; rfl
  | cons a t ih => intro cs; simp [startsWithL, ih]

theorem parseV_ws (f : Nat) (cs : List Char) :
    parseV f (' ' :: cs) = parseV f cs := by
  cases f with
  | zero => rfl
  | succ g =>
    have hws : skipWsJ (' ' :: cs) = skipWsJ cs := by
      simp [skipWsJ, List.dropWhile_cons]
      intro h
      exact absurd h (by decide)
    simp only [parseV, hws]

theorem parseMembers_ws (f : Nat) (cs : List Char) :
    parseMembers f (' ' :: cs) = parseMembers f cs := by
  cases f with
  | zero => rfl
  | succ g =>
    have hws : skipWsJ (' ' :: cs) = skipWsJ cs := by
      simp [skipWsJ, List.dropWhile_cons]
      intro h
      exact absurd h (by decide)
    simp only [parseMembers, hws]

/-- Fuel-insensitive single-value parse property for printed values. -/
def ValOK (v : Json) : Prop :=
  ∀ f rest, 4 ≤ f → numSepOk rest = true →
    parseV f (printV v ++ rest) = some (v, rest)

theorem parseV_int_raw (ip : Nat) (f : Nat) (rest : List Char)
    (hf : 1 ≤ f) (hsep : numSepOk rest = true) :
    parseV f (printV (.num ⟨false, ip, none⟩) ++ rest)
      = some (.num ⟨false, ip, none⟩, rest) := by
  match f, hf with
  | g + 1, _ =>
    obtain ⟨d0, ds0, hnp, hd0⟩ := natPrint_head_digit ip
    obtain ⟨hq, hb, hk, ht, hff, hn, hw⟩ := digit_head_facts d0 hd0
    have hpr : printV (.num ⟨false, ip, none⟩) = natPrint ip := by
      simp [printV, printJNum]
    rw [hpr, hnp]
    simp only [parseV, List.cons_append, skipWsJ_nonws d0 _ hw]
    rw [if_neg hq, if_neg hb, if_neg hk]
    rw [show ("true".toList) = 't' :: "rue".toList from rfl,
      startsWithL_ne_head _ _ _ _ (fun hc => ht hc.symm)]
    rw [show ("false".toList) = 'f' :: "alse".toList from rfl,
      startsWithL_ne_head _ _ _ _ (fun hc => hff hc.symm)]
    rw [show ("null".toList) = 'n' :: "ull".toList from rfl,
      startsWithL_ne_head _ _ _ _ (fun hc => hn hc.symm)]
    simp only [Bool.false_eq_true, if_false]
    rw [show (d0 :: (ds0 ++ rest)) = natPrint ip ++ rest by rw [hnp]; rfl]
    rw [parseNum_int ip rest hsep]
    rfl

theorem parseV_dec_raw (ip : Nat) (fs : List Nat) (f : Nat) (rest : List Char)
    (hfs : fs ≠ []) (hlt : ∀ d ∈ fs, d < 10)
    (hf : 1 ≤ f) (hsep : numSepOk rest = true) :
    parseV f (printV (.num ⟨false, ip, some fs⟩) ++ rest)
      = some (.num ⟨false, ip, some fs⟩, rest) := by
  match f, hf with
  | g + 1, _ =>
    obtain ⟨d0, ds0, hnp, hd0⟩ := natPrint_head_digit ip
    obtain ⟨hq, hb, hk, ht, hff, hn, hw⟩ := digit_head_facts d0 hd0
    have hpr : printV (.num ⟨false, ip, some fs⟩) ++ rest
        = natPrint ip ++ ('.' :: (digitChars fs ++ rest)) := by
      simp [printV, printJNum, digitChars]
    rw [hpr, hnp]
    simp only [parseV, List.cons_append, skipWsJ_nonws d0 _ hw]
    rw [if_neg hq, if_neg hb, if_neg hk]
    rw [show ("true".toList) = 't' :: "rue".toList from rfl,
      startsWithL_ne_head _ _ _ _ (fun hc => ht hc.symm)]
    rw [show ("false".toList) = 'f' :: "alse".toList from rfl,
      startsWithL_ne_head _ _ _ _ (fun hc => hff hc.symm)]
    rw [show ("null".toList) = 'n' :: "ull".toList from rfl,
      startsWithL_ne_head _ _ _ _ (fun hc => hn hc.symm)]
    simp only [Bool.false_eq_true, if_false]
    rw [show (d0 :: (ds0 ++ ('.' :: (digitChars fs ++ rest))))
        = natPrint ip ++ ('.' :: (digitChars fs ++ rest)) by rw [hnp]; rfl]
    rw [parseNum_dec ip fs rest hfs hlt hsep]
    rfl

theorem parseV_str_raw (s : String) (f : Nat) (rest : List Char)
    (hsafe : ∀ c ∈ s.data, strSafe c = true) (hf : 1 ≤ f) :
    parseV f (printV (.str s) ++ rest) = some (.str s, rest) := by
  match f, hf with
  | g + 1, _ =>
    have hpr : printV (.str s) ++ rest = dquote :: (s.data ++ dquote :: rest) := by
      rw [show printV (.str s) = printStr s from rfl, printStr_safe s hsafe]
      simp
    rw [hpr]
    simp only [parseV, skipWsJ_nonws dquote _ (by decide), if_true]
    rw [parseStrBody_roundtrip s.data rest hsafe]
    rfl

theorem parseV_bool_raw (b : Bool) (f : Nat) (rest : List Char) (hf : 1 ≤ f) :
    parseV f (printV (.bool b) ++ rest) = some (.bool b, rest) := by
  match f, hf with
  | g + 1, _ =>
    cases b with
    | true =>
      have hpr : printV (.bool true) ++ rest = 't' :: ("rue".toList ++ rest) := rfl
      rw [hpr]
      simp only [parseV, skipWsJ_nonws 't' _ (by decide)]
      rw [if_neg (by decide), if_neg (by decide), if_neg (by decide)]
      rw [show ('t' :: ("rue".toList ++ rest)) = "true".toList ++ rest from rfl,
        startsWithL_prefix]
      simp only [if_true]
      rw [show ("true".toList ++ rest) = 't' :: 'r' :: 'u' :: 'e' :: rest from rfl]
      rfl
    | false =>
      have hpr : printV (.bool false) ++ rest = 'f' :: ("alse".toList ++ rest) := rfl
      rw [hpr]
      simp only [parseV, skipWsJ_nonws 'f' _ (by decide)]
      rw [if_neg (by decide), if_neg (by decide), if_neg (by decide)]
      rw [show ("true".toList) = 't' :: "rue".toList from rfl,
        startsWithL_ne_head _ _ _ _ (by decide)]
      rw [show ('f' :: ("alse".toList ++ rest)) = "false".toList ++ rest from rfl,
        startsWithL_prefix]
      simp only [Bool.false_eq_true, if_false, if_true]
      rw [show ("false".toList ++ rest) = 'f' :: 'a' :: 'l' :: 's' :: 'e' :: rest from rfl]
      rfl

theorem parseV_null_raw (f : Nat) (rest : List Char) (hf : 1 ≤ f) :
    parseV f (printV .null ++ rest) = some (.null, rest) := by
  match f, hf with
  | g + 1, _ =>
    have hpr : printV .null ++ rest = 'n' :: ("ull".toList ++ rest) := rfl
    rw [hpr]
    simp only [parseV, skipWsJ_nonws 'n' _ (by decide)]
    rw [if_neg (by decide), if_neg (by decide), if_neg (by decide)]
    rw [show ("true".toList) = 't' :: "rue".toList from rfl,
      startsWithL_ne_head _ _ _ _ (by decide)]
    rw [show ("false".toList) = 'f' :: "alse".toList from rfl,
      startsWithL_ne_head _ _ _ _ (by decide)]
    rw [show ('n' :: ("ull".toList ++ rest)) = "null".toList ++ rest from rfl,
      startsWithL_prefix]
    simp only [Bool.false_eq_true, if_false, if_true]
    rw [show ("null".toList ++ rest) = 'n' :: 'u' :: 'l' :: 'l' :: rest from rfl]
    rfl

theorem parseV_arr2_raw (n1 n2 : Nat) (f : Nat) (rest : List Char)
    (hf : 4 ≤ f) (hsep : numSepOk rest = true) :
    parseV f (printV (.arr [.num ⟨false, n1, none⟩, .num ⟨false, n2, none⟩]) ++ rest)
      = some (.arr [.num ⟨false, n1, none⟩, .num ⟨false, n2, none⟩], rest) := by
  match f, hf with
  | g + 1, hf =>
    obtain ⟨d0, ds0, hnp, hd0⟩ := natPrint_head_digit n1
    obtain ⟨hq, hb, hk, _, _, _, hw⟩ := digit_head_facts d0 hd0
    have hpx : printV (.num ⟨false, n1, none⟩) = natPrint n1 := by
      simp [printV, printJNum]
    have hpr : printV (.arr [.num ⟨false, n1, none⟩, .num ⟨false, n2, none⟩]) ++ rest
        = '[' :: (printV (.num ⟨false, n1, none⟩) ++
            (',' :: ' ' :: (printV (.num ⟨false, n2, none⟩) ++ (']' :: rest)))) := by
      simp [printV, printItemsL]
    rw [hpr]
    simp only [parseV, skipWsJ_nonws '[' _ (by decide)]
    rw [if_neg (by decide), if_neg (by decide)]
    simp only [if_true]
    have hshape : printV (.num ⟨false, n1, none⟩) ++
        (',' :: ' ' :: (printV (.num ⟨false, n2, none⟩) ++ (']' :: rest)))
        = d0 :: (ds0 ++ (',' :: ' ' :: (printV (.num ⟨false, n2, none⟩) ++ (']' :: rest)))) := by
      rw [hpx, hnp]
      rfl
    rw [hshape, skipWsJ_nonws d0 _ hw]
    have hd0ne : ¬(d0 = ']') := by
      intro hc; rw [hc] at hd0; exact absurd hd0 (by decide)
    show (if d0 = ']' then
        some (Json.arr [], ds0 ++ (',' :: ' ' :: (printV (.num ⟨false, n2, none⟩) ++ (']' :: rest))))
      else Option.map (fun p => (Json.arr p.1, p.2)) (parseItems g
        (d0 :: (ds0 ++ (',' :: ' ' :: (printV (.num ⟨false, n2, none⟩) ++ (']' :: rest)))))))
      = some (.arr [.num ⟨false, n1, none⟩, .num ⟨false, n2, none⟩], rest)
    rw [if_neg hd0ne]
    rw [← hshape]
    have hsep1 : numSepOk (',' :: ' ' :: (printV (.num ⟨false, n2, none⟩) ++ (']' :: rest)))
        = true := by
      simp +decide [numSepOk]
    have hsep2 : numSepOk (']' :: rest) = true := by
      simp +decide [numSepOk]
    have hitems : parseItems g (printV (.num ⟨false, n1, none⟩) ++
        (',' :: ' ' :: (printV (.num ⟨false, n2, none⟩) ++ (']' :: rest))))
        = some ([.num ⟨false, n1, none⟩, .num ⟨false, n2, none⟩], rest) := by
      match g, hf with
      | h + 1, _ =>
        have hinner : parseItems h (' ' :: (printV (.num ⟨false, n2, none⟩) ++ (']' :: rest)))
            = some ([.num ⟨false, n2, none⟩], rest) := by
          match h, hf with
          | j + 1, _ =>
            simp only [parseItems]
            rw [parseV_ws, parseV_int_raw n2 j _ (by omega) hsep2]
            simp only []
            rw [skipWsJ_nonws ']' _ (by decide)]
            rfl
        simp only [parseItems]
        rw [parseV_int_raw n1 h _ (by omega) hsep1]
        simp only []
        rw [skipWsJ_nonws ',' _ (by decide)]
        simp only []
        rw [hinner]
        rfl
    rw [hitems]
    rfl

theorem valok_str (s : String) (hsafe : ∀ c ∈ s.data, strSafe c = true) :
    ValOK (.str s) :=
  fun f rest hf _ => parseV_str_raw s f rest hsafe (by omega)

theorem valok_int (ip : Nat) : ValOK (.num ⟨false, ip, none⟩) :=
  fun f rest hf hsep => parseV_int_raw ip f rest (by omega) hsep

theorem valok_dec (ip : Nat) (fs : List Nat) (hfs : fs ≠ []) (hlt : ∀ d ∈ fs, d < 10) :
    ValOK (.num ⟨false, ip, some fs⟩) :=
  fun f rest hf hsep => parseV_dec_raw ip fs f rest hfs hlt (by omega) hsep

theorem valok_bool (b : Bool) : ValOK (.bool b) :=
  fun f rest hf _ => parseV_bool_raw b f rest (by omega)

theorem valok_null : ValOK .null :=
  fun f rest hf _ => parseV_null_raw f rest (by omega)

theorem valok_arr2 (n1 n2 : Nat) :
    ValOK (.arr [.num ⟨false, n1, none⟩, .num ⟨false, n2, none⟩]) :=
  fun f rest hf hsep => parseV_arr2_raw n1 n2 f rest hf hsep

theorem parseMembers_print :
    ∀ (kvs : List (String × Json)), kvs ≠ [] →
      (∀ kv ∈ kvs, (∀ c ∈ (kv.1 : String).data, strSafe c = true) ∧ ValOK kv.2) →
      ∀ f rest, kvs.length + 4 ≤ f →
        parseMembers f (printMembersL kvs ++ rbrace :: rest) = some (kvs, rest) := by
  intro kvs
  induction kvs with
  | nil => intro hne; exact absurd rfl hne
  | cons kv t ih =>
    intro _ hall f rest hf
    obtain ⟨k, v⟩ := kv
    obtain ⟨hkey, hval⟩ := hall (k, v) (List.mem_cons_self _ _)
    match f, hf with
    | g + 1, hf =>
      cases t with
      | nil =>
        have htext : printMembersL [(k, v)] ++ rbrace :: rest
            = dquote :: (k.data ++ (dquote :: (':' :: ' ' :: (printV v ++ (rbrace :: rest))))) := by
          simp [printMembersL, printStr_safe k hkey, List.append_assoc]
        rw [htext]
        simp only [parseMembers, skipWsJ_nonws dquote _ (by decide), if_true]
        rw [show (k.data ++ (dquote :: (':' :: ' ' :: (printV v ++ (rbrace :: rest)))))
            = k.data ++ dquote :: (':' :: ' ' :: (printV v ++ (rbrace :: rest))) from rfl]
        rw [parseStrBody_roundtrip k.data _ hkey]
        simp only []
        rw [skipWsJ_nonws ':' _ (by decide)]
        simp only []
        rw [parseV_ws, hval g (rbrace :: rest) (by simp at hf; omega) (by simp +decide [numSepOk])]
        simp only []
        rw [skipWsJ_nonws rbrace _ (by decide)]
        rfl
      | cons m t2 =>
        have htext : printMembersL ((k, v) :: m :: t2) ++ rbrace :: rest
            = dquote :: (k.data ++ (dquote :: (':' :: ' ' ::
                (printV v ++ (',' :: ' ' :: (printMembersL (m :: t2) ++ rbrace :: rest)))))) := by
          simp [printMembersL, printStr_safe k hkey, List.append_assoc]
        rw [htext]
        simp only [parseMembers, skipWsJ_nonws dquote _ (by decide), if_true]
        rw [show (k.data ++ (dquote :: (':' :: ' ' ::
              (printV v ++ (',' :: ' ' :: (printMembersL (m :: t2) ++ rbrace :: rest))))))
            = k.data ++ dquote :: (':' :: ' ' ::
              (printV v ++ (',' :: ' ' :: (printMembersL (m :: t2) ++ rbrace :: rest)))) from rfl]
        rw [parseStrBody_roundtrip k.data _ hkey]
        simp only []
        rw [skipWsJ_nonws ':' _ (by decide)]
        simp only []
        rw [parseV_ws, hval g _ (by simp at hf; omega) (by simp +decide [numSepOk])]
        simp only []
        rw [skipWsJ_nonws ',' _ (by decide)]
        simp only []
        rw [parseMembers_ws,
          ih (m :: t2).noConfusion (fun kv2 h2 => hall kv2 (List.mem_cons_of_mem _ h2))
            g rest (by simp at hf ⊢; omega)]
        rfl

theorem parseV_obj_print (kvs : List (String × Json)) (k0 : String) (v0 : Json)
    (t0 : List (String × Json)) (hshape : kvs = (k0, v0) :: t0)
    (hall : ∀ kv ∈ kvs, (∀ c ∈ (kv.1 : String).data, strSafe c = true) ∧ ValOK kv.2) :
    ∀ f rest, kvs.length + 5 ≤ f →
      parseV f (printV (.obj kvs) ++ rest) = some (.obj kvs, rest) := by
  intro f rest hf
  match f, hf with
  | g + 1, hf =>
    have htext : printV (.obj kvs) ++ rest
        = lbrace :: (printMembersL kvs ++ (rbrace :: rest)) := by
      simp [printV]
    rw [htext]
    simp only [parseV, skipWsJ_nonws lbrace _ (by decide)]
    rw [if_neg (by decide)]
    simp only [if_true]
    obtain ⟨X, hX⟩ : ∃ X, printMembersL kvs ++ (rbrace :: rest) = dquote :: X := by
      subst hshape
      cases t0 with
      | nil =>
        refine ⟨(List.map escChar k0.data).flatten ++
          dquote :: ':' :: ' ' :: (printV v0 ++ rbrace :: rest), ?_⟩
        simp [printMembersL, printStr, List.append_assoc, List.cons_append]
      | cons m t2 =>
        refine ⟨(List.map escChar k0.data).flatten ++
          dquote :: ':' :: ' ' :: (printV v0 ++ ',' :: ' ' ::
            (printMembersL (m :: t2) ++ rbrace :: rest)), ?_⟩
        simp [printMembersL, printStr, List.append_assoc, List.cons_append]
    rw [hX, skipWsJ_nonws dquote _ (by decide)]
    simp only []
    rw [if_neg (by decide)]
    rw [← hX]
    rw [parseMembers_print kvs (by rw [hshape]; exact List.cons_ne_nil _ _) hall g rest (by omega)]
    rfl

theorem printMembersL_len : ∀ kvs : List (String × Json), kvs.length ≤ (printMembersL kvs).length := by
  intro kvs
  induction kvs with
  | nil => simp [printMembersL]
  | cons kv t ih =>
    obtain ⟨k, v⟩ := kv
    cases t with
    | nil => simp [printMembersL, printStr]
    | cons m t2 =>
      simp only [printMembersL, List.length_append, List.length_cons] at ih ⊢
      simp [printStr]
      omega

theorem json_loads_print_obj (kvs : List (String × Json)) (k0 : String) (v0 : Json)
    (t0 : List (String × Json)) (hshape : kvs = (k0, v0) :: t0)
    (hall : ∀ kv ∈ kvs, (∀ c ∈ (kv.1 : String).data, strSafe c = true) ∧ ValOK kv.2) :
    json_loads (printV (.obj kvs)) = some (.obj kvs) := by
  have hlenM := printMembersL_len kvs
  have hlenV : (printV (.obj kvs)).length = (printMembersL kvs).length + 2 := by
    simp [printV]
  have h := parseV_obj_print kvs k0 v0 t0 hshape hall
    (2 * (printV (.obj kvs)).length + 2) [] (by omega)
  rw [List.append_nil] at h
  unfold json_loads
  rw [h]
  rfl

/-- Name characters of the amended round-trip statement: lowercase ASCII
letters, digits, spaces. -/
def safeNameChar (c : Char) : Bool :=
  (97 ≤ c.toNat && c.toNat ≤ 122) || digitChar c || c = ' '

/-- Characters that can occur in a dumped appliance object. -/
def dumpChar (c : Char) : Bool :=
  safeNameChar c || c = dquote || c = lbrace || c = rbrace || c = '[' ||
    c = ']' || c = ',' || c = ':' || c = '.' || c = '_'

theorem safeNameChar_strSafe (c : Char) (h : safeNameChar c = true) :
    strSafe c = true := by
  by_cases hq : c = dquote
  · rw [hq] at h; exact absurd h (by decide)
  · by_cases hb : c = '\\'
    · rw [hb] at h; exact absurd h (by decide)
    · simp [strSafe, hq, hb]
      simp [safeNameChar] at h
      rcases h with (⟨h1, h2⟩ | h) | h
      · omega
      · have := digitChar_toNat c h
        omega
      · first
        | decide
        | (rw [h]; decide)

theorem safeNameChar_ne_comma (c : Char) (h : safeNameChar c = true) : c ≠ ',' := by
  intro hc; rw [hc] at h; exact absurd h (by decide)

theorem digitChar_dumpChar (c : Char) (h : digitChar c = true) : dumpChar c = true := by
  simp [dumpChar, safeNameChar, h]

theorem digitChar_ne_comma (c : Char) (h : digitChar c = true) : c ≠ ',' := by
  intro hc; rw [hc] at h; exact absurd h (by decide)

theorem digit_not_ws_closer (c : Char) (h : digitChar c = true) :
    wsChar c = false ∧ closerChar c = false := by
  constructor
  · cases hw : wsChar c
    · rfl
    · exfalso
      simp [wsChar] at hw
      rcases hw with ((((hw | hw) | hw) | hw) | hw) | hw <;>
        first
        | exact absurd h (by decide)
        | (rw [hw] at h; exact absurd h (by decide))
  · cases hw : closerChar c
    · rfl
    · exfalso
      simp [closerChar] at hw
      rcases hw with hw | hw <;>
        first
        | exact absurd h (by decide)
        | (rw [hw] at h; exact absurd h (by decide))

/-- Head shape required after a comma for the trailing-comma regex not to
fire: a space and then a character that is neither whitespace nor a closer. -/
def tcHeadOk : List Char → Bool
  | e1 :: e2 :: _ => e1 = ' ' && !wsChar e2 && !closerChar e2
  | _ => false

/-- No-trailing-comma safety: every comma is followed by a good head. -/
def tcSafeB : List Char → Bool
  | [] => true
  | c :: rest => (if c = ',' then tcHeadOk rest else true) && tcSafeB rest

theorem rmTCgo_id : ∀ cs, tcSafeB cs = true → rmTCgo false cs = cs := by
  intro cs
  induction cs with
  | nil => intro _; rfl
  | cons c rest ih =>
    intro h
    rw [tcSafeB, Bool.and_eq_true] at h
    obtain ⟨h1, h2⟩ := h
    by_cases hc : c = ','
    · subst hc
      rw [if_pos rfl] at h1
      cases rest with
      | nil => exact absurd h1 (by decide)
      | cons e1 rest1 =>
        cases rest1 with
        | nil =>
          rw [show tcHeadOk [e1] = false from rfl] at h1
          exact absurd h1 (by decide)
        | cons e2 rest2 =>
          rw [tcHeadOk] at h1
          simp only [Bool.and_eq_true, decide_eq_true_eq, Bool.not_eq_true'] at h1
          obtain ⟨⟨he1, hw2⟩, hc2⟩ := h1
          subst he1
          have hdw : (' ' :: e2 :: rest2).dropWhile wsChar = e2 :: rest2 := by
            rw [List.dropWhile_cons, if_pos (by decide), List.dropWhile_cons,
              if_neg (by simp [hw2])]
          rw [rmTCgo, if_pos rfl, hdw]
          simp only []
          rw [if_neg (by simp [hc2])]
          rw [ih h2]
    · rw [rmTCgo, if_neg hc, ih h2]

theorem tcSafeB_cons_nc (c : Char) (ys : List Char) (hc : c ≠ ',') :
    tcSafeB (c :: ys) = tcSafeB ys := by
  rw [tcSafeB, if_neg hc, Bool.true_and]

theorem tcSafeB_append_nc :
    ∀ (xs ys : List Char), (∀ c ∈ xs, c ≠ ',') → tcSafeB ys = true →
      tcSafeB (xs ++ ys) = true := by
  intro xs
  induction xs with
  | nil => intro ys _ hy; exact hy
  | cons c t ih =>
    intro ys hnc hy
    rw [List.cons_append, tcSafeB_cons_nc c _ (hnc c (List.mem_cons_self _ _))]
    exact ih ys (fun d hd => hnc d (List.mem_cons_of_mem _ hd)) hy

theorem tcSafeB_sep (e : Char) (ys : List Char)
    (hw : wsChar e = false) (hcl : closerChar e = false)
    (hy : tcSafeB (e :: ys) = true) :
    tcSafeB (',' :: ' ' :: e :: ys) = true := by
  rw [tcSafeB, if_pos rfl]
  rw [show tcHeadOk (' ' :: e :: ys) = (decide (' ' = ' ') && !wsChar e && !closerChar e) from rfl]
  rw [tcSafeB_cons_nc ' ' _ (by decide)]
  simp [hw, hcl, hy]

theorem rmLCgo_id : ∀ cs, (∀ c ∈ cs, c ≠ '/') → rmLCgo false cs = cs := by
  intro cs
  induction cs with
  | nil => intro _; rfl
  | cons c t ih =>
    intro h
    rw [rmLCgo.eq_def]
    simp only []
    rw [if_neg (by simp [h c (List.mem_cons_self _ _)])]
    rw [ih (fun d hd => h d (List.mem_cons_of_mem _ hd))]

theorem rwGo_id (p0 : Char) (pp rep : List Char) :
    ∀ cs, (∀ c ∈ cs, c ≠ p0) → ∀ prev, rwGo (p0 :: pp) rep 0 prev cs = cs := by
  intro cs
  induction cs with
  | nil => intro _ _; rfl
  | cons c t ih =>
    intro h prev
    rw [rwGo]
    rw [startsWithL_ne_head p0 c pp t (fun hx => h c (List.mem_cons_self _ _) hx.symm)]
    simp only [Bool.false_and, Bool.false_eq_true, if_false]
    rw [ih (fun d hd => h d (List.mem_cons_of_mem _ hd)) (some c)]

theorem pyStrip_id_brace (M : List Char) :
    pyStrip (lbrace :: (M ++ [rbrace])) = lbrace :: (M ++ [rbrace]) := by
  unfold pyStrip
  rw [List.dropWhile_cons, if_neg (by decide)]
  rw [show (lbrace :: (M ++ [rbrace])).reverse = rbrace :: (M.reverse ++ [lbrace]) by simp]
  rw [List.dropWhile_cons, if_neg (by decide)]
  rw [show (rbrace :: (M.reverse ++ [lbrace])).reverse = lbrace :: (M ++ [rbrace]) by simp]

theorem stripLeadFence_id_brace (M : List Char) :
    stripLeadFence (lbrace :: M) = lbrace :: M := by
  unfold stripLeadFence
  rw [show ("```".toList) = '`' :: "``".toList from rfl,
    startsWithL_ne_head _ _ _ _ (by decide)]
  simp

theorem stripTailFence_id_brace (M : List Char) :
    stripTailFence (lbrace :: (M ++ [rbrace])) = lbrace :: (M ++ [rbrace]) := by
  unfold stripTailFence
  unfold endsWithL
  rw [show ("```".toList.reverse) = '`' :: "``".toList.reverse from rfl]
  rw [show (lbrace :: (M ++ [rbrace])).reverse = rbrace :: (M.reverse ++ [lbrace]) by simp]
  rw [startsWithL_ne_head _ _ _ _ (by decide)]
  simp

/-- The printed value leaves the trailing-comma scan inert. -/
def TcV (v : Json) : Prop :=
  ∀ ys, tcSafeB ys = true → tcSafeB (printV v ++ ys) = true

theorem tcv_of_nc (v : Json) (h : ∀ c ∈ printV v, c ≠ ',') : TcV v :=
  fun ys hy => tcSafeB_append_nc _ _ h hy

theorem natPrint_all_digit (n : Nat) : ∀ c ∈ natPrint n, digitChar c = true := by
  obtain ⟨hall, _, _, _⟩ := natPrint_spec n
  intro c hc
  simp [List.all_eq_true] at hall
  exact hall c hc

theorem printV_int_nc (n : Nat) : ∀ c ∈ printV (.num ⟨false, n, none⟩), c ≠ ',' := by
  intro c hc
  rw [show printV (.num ⟨false, n, none⟩) = natPrint n by simp [printV, printJNum]] at hc
  exact digitChar_ne_comma c (natPrint_all_digit n c hc)

theorem printV_dec_nc (n : Nat) (fs : List Nat) (hlt : ∀ d ∈ fs, d < 10) :
    ∀ c ∈ printV (.num ⟨false, n, some fs⟩), c ≠ ',' := by
  intro c hc
  rw [show printV (.num ⟨false, n, some fs⟩) = natPrint n ++ ('.' :: digitChars fs)
    by simp [printV, printJNum, digitChars]] at hc
  rw [List.mem_append] at hc
  rcases hc with hc | hc
  · exact digitChar_ne_comma c (natPrint_all_digit n c hc)
  · rcases List.mem_cons.mp hc with hc | hc
    · rw [hc]; decide
    · exact digitChar_ne_comma c (digitChars_all_digit fs hlt c hc)

theorem tcv_arr2 (n1 n2 : Nat) :
    TcV (.arr [.num ⟨false, n1, none⟩, .num ⟨false, n2, none⟩]) := by
  intro ys hy
  have htext : printV (.arr [.num ⟨false, n1, none⟩, .num ⟨false, n2, none⟩]) ++ ys
      = '[' :: (printV (.num ⟨false, n1, none⟩) ++
          (',' :: ' ' :: (printV (.num ⟨false, n2, none⟩) ++ (']' :: ys)))) := by
    simp [printV, printItemsL]
  rw [htext, tcSafeB_cons_nc '[' _ (by decide)]
  apply tcSafeB_append_nc _ _ (printV_int_nc n1)
  obtain ⟨d0, ds0, hnp, hd0⟩ := natPrint_head_digit n2
  have hshape : printV (.num ⟨false, n2, none⟩) ++ (']' :: ys)
      = d0 :: (ds0 ++ (']' :: ys)) := by
    rw [show printV (.num ⟨false, n2, none⟩) = natPrint n2 by simp [printV, printJNum], hnp]
    rfl
  rw [hshape]
  obtain ⟨hdw, hdc⟩ := digit_not_ws_closer d0 hd0
  apply tcSafeB_sep d0 _ hdw hdc
  rw [← hshape]
  apply tcSafeB_append_nc _ _ (printV_int_nc n2)
  rw [tcSafeB_cons_nc ']' _ (by decide)]
  exact hy

theorem safeNameChar_dumpChar (c : Char) (h : safeNameChar c = true) :
    dumpChar c = true := by
  simp [dumpChar, h]

/-- Per-member facts needed for the round trip: key and value print into
safe, comma-inert, charset-clean text, and the value parses back. -/
def MemberOK (kv : String × Json) : Prop :=
  (∀ c ∈ (kv.1 : String).data, strSafe c = true) ∧
  (∀ c ∈ printStr kv.1, dumpChar c = true) ∧
  (∀ c ∈ printStr kv.1, c ≠ ',') ∧
  ValOK kv.2 ∧ TcV kv.2 ∧ (∀ c ∈ printV kv.2, dumpChar c = true)

theorem printMembersL_cons_shape (m : String × Json) (t2 : List (String × Json))
    (ys : List Char) :
    ∃ X, printMembersL (m :: t2) ++ ys = dquote :: X := by
  obtain ⟨k, v⟩ := m
  cases t2 with
  | nil =>
    refine ⟨(List.map escChar k.data).flatten ++ dquote :: ':' :: ' ' :: (printV v ++ ys), ?_⟩
    simp [printMembersL, printStr, List.append_assoc, List.cons_append]
  | cons m2 t3 =>
    refine ⟨(List.map escChar k.data).flatten ++ dquote :: ':' :: ' ' ::
      (printV v ++ ',' :: ' ' :: (printMembersL (m2 :: t3) ++ ys)), ?_⟩
    simp [printMembersL, printStr, List.append_assoc, List.cons_append]

theorem tc_membersL :
    ∀ kvs : List (String × Json), (∀ kv ∈ kvs, MemberOK kv) →
      ∀ ys, tcSafeB ys = true → tcSafeB (printMembersL kvs ++ ys) = true := by
  intro kvs
  induction kvs with
  | nil => intro _ ys hy; exact hy
  | cons kv t ih =>
    intro hm ys hy
    obtain ⟨k, v⟩ := kv
    obtain ⟨_, _, hknc, _, htcv, _⟩ := hm (k, v) (List.mem_cons_self _ _)
    cases t with
    | nil =>
      have htext : printMembersL [(k, v)] ++ ys
          = printStr k ++ (':' :: ' ' :: (printV v ++ ys)) := by
        simp [printMembersL, List.append_assoc]
      rw [htext]
      apply tcSafeB_append_nc _ _ hknc
      rw [tcSafeB_cons_nc ':' _ (by decide), tcSafeB_cons_nc ' ' _ (by decide)]
      exact htcv ys hy
    | cons m t2 =>
      have htext : printMembersL ((k, v) :: m :: t2) ++ ys
          = printStr k ++ (':' :: ' ' :: (printV v ++
              (',' :: ' ' :: (printMembersL (m :: t2) ++ ys)))) := by
        simp [printMembersL, List.append_assoc]
      rw [htext]
      apply tcSafeB_append_nc _ _ hknc
      rw [tcSafeB_cons_nc ':' _ (by decide), tcSafeB_cons_nc ' ' _ (by decide)]
      apply htcv
      obtain ⟨X, hX⟩ := printMembersL_cons_shape m t2 ys
      rw [hX]
      apply tcSafeB_sep dquote _ (by decide) (by decide)
      rw [← hX]
      exact ih (fun kv2 h2 => hm kv2 (List.mem_cons_of_mem _ h2)) ys hy

theorem ch_membersL :
    ∀ kvs : List (String × Json), (∀ kv ∈ kvs, MemberOK kv) →
      ∀ c ∈ printMembersL kvs, dumpChar c = true := by
  intro kvs
  induction kvs with
  | nil => intro _ c hc; simp [printMembersL] at hc
  | cons kv t ih =>
    intro hm c hc
    obtain ⟨k, v⟩ := kv
    obtain ⟨_, hkch, _, _, _, hvch⟩ := hm (k, v) (List.mem_cons_self _ _)
    cases t with
    | nil =>
      simp only [printMembersL, List.mem_append, List.mem_cons] at hc
      rcases hc with hc | hc | hc | hc
      · exact hkch c hc
      · rw [hc]; decide
      · rw [hc]; decide
      · exact hvch c hc
    | cons m t2 =>
      simp only [printMembersL, List.mem_append, List.mem_cons] at hc
      rcases hc with (hc | hc | hc | hc) | hc | hc | hc
      · exact hkch c hc
      · rw [hc]; decide
      · rw [hc]; decide
      · exact hvch c hc
      · rw [hc]; decide
      · rw [hc]; decide
      · exact ih (fun kv2 h2 => hm kv2 (List.mem_cons_of_mem _ h2)) c hc

theorem dumpChar_not_tfn (c : Char) (h : dumpChar c = true) :
    c ≠ '/' ∧ c ≠ 'T' ∧ c ≠ 'F' ∧ c ≠ 'N' ∧ c ≠ 'J' := by
  refine ⟨?_, ?_, ?_, ?_, ?_⟩ <;>
    (intro hc; rw [hc] at h; exact absurd h (by decide))

theorem cleanL_print_obj (kvs : List (String × Json)) (m0 : String × Json)
    (t0 : List (String × Json)) (hshape : kvs = m0 :: t0)
    (hmem : ∀ kv ∈ kvs, MemberOK kv) :
    cleanL (printV (.obj kvs)) = printV (.obj kvs) := by
  have hobj : printV (.obj kvs) = lbrace :: (printMembersL kvs ++ [rbrace]) := by
    simp [printV]
  have hch : ∀ c ∈ lbrace :: (printMembersL kvs ++ [rbrace]), dumpChar c = true := by
    intro c hc
    rcases List.mem_cons.mp hc with hc | hc
    · rw [hc]; decide
    · rcases List.mem_append.mp hc with hc | hc
      · exact ch_membersL kvs hmem c hc
      · rw [List.mem_singleton.mp hc]; decide
  have htc : tcSafeB (lbrace :: (printMembersL kvs ++ [rbrace])) = true := by
    rw [tcSafeB_cons_nc lbrace _ (by decide)]
    exact tc_membersL kvs hmem [rbrace] (by decide)
  obtain ⟨X, hX⟩ : ∃ X, printMembersL kvs ++ [rbrace] = dquote :: X := by
    rw [hshape]
    exact printMembersL_cons_shape m0 t0 [rbrace]
  have hguard : (startsWithL [lbrace] (lbrace :: (printMembersL kvs ++ [rbrace])) &&
      !(((lbrace :: (printMembersL kvs ++ [rbrace])).take 20).any (fun c => c = dquote))) = false := by
    rw [hX]
    simp
  rw [hobj]
  unfold cleanL
  simp only []
  rw [pyStrip_id_brace]
  rw [stripLeadFence_id_brace]
  rw [stripTailFence_id_brace]
  rw [pyStrip_id_brace]
  rw [hguard]
  simp only [Bool.false_eq_true, if_false]
  rw [show rmTrailingCommas (lbrace :: (printMembersL kvs ++ [rbrace]))
      = rmTCgo false (lbrace :: (printMembersL kvs ++ [rbrace])) from rfl]
  rw [rmTCgo_id _ htc]
  rw [show rmLineComments (lbrace :: (printMembersL kvs ++ [rbrace]))
      = rmLCgo false (lbrace :: (printMembersL kvs ++ [rbrace])) from rfl]
  rw [rmLCgo_id _ (fun c hc => (dumpChar_not_tfn c (hch c hc)).1)]
  unfold replaceWord
  rw [show ("True".toList) = 'T' :: "rue".toList from rfl]
  rw [rwGo_id 'T' _ _ _ (fun c hc => (dumpChar_not_tfn c (hch c hc)).2.1) none]
  rw [show ("False".toList) = 'F' :: "alse".toList from rfl]
  rw [rwGo_id 'F' _ _ _ (fun c hc => (dumpChar_not_tfn c (hch c hc)).2.2.1) none]
  rw [show ("None".toList) = 'N' :: "one".toList from rfl]
  rw [rwGo_id 'N' _ _ _ (fun c hc => (dumpChar_not_tfn c (hch c hc)).2.2.2.1) none]

/-- Window invariant of the data model (two in-range endpoints, start < end). -/
def winOK (w : List Int) : Bool :=
  match w with
  | [s, e] => 0 ≤ s && s ≤ 1440 && 0 ≤ e && e ≤ 1440 && s < e
  | _ => false

/-- Canonical-representation well-formedness of an embedded float: no sign
flag, and fraction digits (when present) a nonempty list of base-10 digits. -/
def jnumWF (j : JNum) : Bool :=
  !j.neg && (match j.fp with
    | none => true
    | some ds => !ds.isEmpty && ds.all (fun d => d < 10))

/-- The invariants of the `ApplianceExtracted` data model (field constraints
and the cycle rule of `models/appliance.py`), on the embedded record. -/
def modelInvR (a : ApplianceExtracted) : Bool :=
  (1 ≤ a.name.length && a.name.length ≤ 100) &&
  (1 ≤ a.number && a.number ≤ 100) &&
  (1 ≤ a.power && a.power ≤ 10000) &&
  (1 ≤ a.func_time && a.func_time ≤ 1440) &&
  (1 ≤ a.num_windows && a.num_windows ≤ 3) &&
  winOK a.window_1 &&
  (match a.window_2 with | none => true | some w => winOK w) &&
  (match a.window_3 with | none => true | some w => winOK w) &&
  (1 ≤ a.func_cycle && a.func_cycle ≤ a.func_time) &&
  (a.fixed == "yes" || a.fixed == "no") &&
  (jnumWF a.occasional_use && !jnumNeg a.occasional_use && !jnumGtOne a.occasional_use) &&
  (0 ≤ a.wd_we_type && a.wd_we_type ≤ 2)

/-- Model invariants plus the safe-name restriction of the amended claim. -/
def validR (a : ApplianceExtracted) : Bool :=
  modelInvR a && a.name.data.all safeNameChar

theorem asInt_intJ (n : Int) (h : 0 ≤ n) : asInt (intJ n) = some n := by
  have hn : ¬(n < 0) := by omega
  simp [intJ, asInt, hn]
  exact h

theorem asIntList_win (s e : Int) (hs : 0 ≤ s) (he : 0 ≤ e) :
    asIntList (.arr [intJ s, intJ e]) = some [s, e] := by
  simp [asIntList, List.mapM, List.mapM.loop, asInt_intJ s hs, asInt_intJ e he]

theorem winOK_shape (w : List Int) (h : winOK w = true) :
    ∃ s e, w = [s, e] ∧ 0 ≤ s ∧ s ≤ 1440 ∧ 0 ≤ e ∧ e ≤ 1440 ∧ s < e := by
  cases w with
  | nil => rw [show winOK [] = false from rfl] at h; cases h
  | cons s t =>
    cases t with
    | nil => rw [show winOK [s] = false from rfl] at h; cases h
    | cons e t2 =>
      cases t2 with
      | cons x t3 =>
        rw [show winOK (s :: e :: x :: t3) = false from rfl] at h
        cases h
      | nil =>
        refine ⟨s, e, rfl, ?_⟩
        simp only [winOK, Bool.and_eq_true, decide_eq_true_eq] at h
        exact ⟨h.1.1.1.1, h.1.1.1.2, h.1.1.2, h.1.2, h.2⟩

set_option maxHeartbeats 2000000 in
theorem applianceOfJson_dump (a : ApplianceExtracted) (h : modelInvR a = true) :
    applianceOfJson (dumpKvs a) = .ok a := by
  obtain ⟨nm, nu, po, ft, nw, w1, w2, w3, fc, fx, ou, wd, dc⟩ := a
  simp only [modelInvR, Bool.and_eq_true, decide_eq_true_eq, Bool.not_eq_true',
    Bool.or_eq_true, beq_iff_eq] at h
  obtain ⟨⟨⟨⟨⟨⟨⟨⟨⟨⟨⟨⟨hn1, hn2⟩, hb1, hb2⟩, hp1, hp2⟩, ht1, ht2⟩, hv1, hv2⟩,
    hwin1⟩, hwin2⟩, hwin3⟩, hc1, hc2⟩, hfx⟩, ⟨houwf, hineg⟩, higt⟩, hd1, hd2⟩ := h
  obtain ⟨s1, e1, rfl, hs1a, hs1b, he1a, he1b, hlt1⟩ := winOK_shape _ hwin1
  have hfxb : (fx == "yes" || fx == "no") = true := by
    rcases hfx with h | h <;> simp [h]
  have hnf1 : ¬(nm.length < 1) := by omega
  have hnf2 : ¬(nm.length > 100) := by omega
  have houf : asFloat (.num ou) = some ou := by simp [asFloat]
  cases w2 with
  | none =>
    cases w3 with
    | none =>
      simp +decide [applianceOfJson, dumpKvs, dictGet, intField, optWindowField,
        windowError, asStr, asBool, optListJ, houf, hineg, higt, hfxb, hnf1, hnf2,
        asInt_intJ nu (by omega), asInt_intJ po (by omega), asInt_intJ ft (by omega),
        asInt_intJ nw (by omega), asInt_intJ wd (by omega), asInt_intJ fc (by omega),
        asIntList_win s1 e1 (by omega) (by omega)]
      simp [show ¬(nu < 1 ∨ 100 < nu) by omega, show ¬(po < 1 ∨ 10000 < po) by omega,
        show ¬(ft < 1 ∨ 1440 < ft) by omega, show ¬(nw < 1 ∨ 3 < nw) by omega,
        show ¬(s1 < 0 ∨ 1440 < s1) by omega, show ¬(e1 < 0 ∨ 1440 < e1) by omega,
        show ¬(e1 ≤ s1) by omega, show ¬(fc < 1) by omega, show ¬(ft < fc) by omega,
        show ¬(wd < 0 ∨ 2 < wd) by omega, hfx]
    | some l3 =>
      have hw3x : winOK l3 = true := hwin3
      obtain ⟨s3, e3, rfl, hs3a, hs3b, he3a, he3b, hlt3⟩ := winOK_shape _ hw3x
      simp +decide [applianceOfJson, dumpKvs, dictGet, intField, optWindowField,
        windowError, asStr, asBool, optListJ, houf, hineg, higt, hfxb, hnf1, hnf2,
        asInt_intJ nu (by omega), asInt_intJ po (by omega), asInt_intJ ft (by omega),
        asInt_intJ nw (by omega), asInt_intJ wd (by omega), asInt_intJ fc (by omega),
        asIntList_win s1 e1 (by omega) (by omega),
        asIntList_win s3 e3 (by omega) (by omega)]
      simp [show ¬(nu < 1 ∨ 100 < nu) by omega, show ¬(po < 1 ∨ 10000 < po) by omega,
        show ¬(ft < 1 ∨ 1440 < ft) by omega, show ¬(nw < 1 ∨ 3 < nw) by omega,
        show ¬(s1 < 0 ∨ 1440 < s1) by omega, show ¬(e1 < 0 ∨ 1440 < e1) by omega,
        show ¬(e1 ≤ s1) by omega, show ¬(fc < 1) by omega, show ¬(ft < fc) by omega,
        show ¬(wd < 0 ∨ 2 < wd) by omega, hfx,
        show ¬(s3 < 0 ∨ 1440 < s3) by omega, show ¬(e3 < 0 ∨ 1440 < e3) by omega,
        show ¬(e3 ≤ s3) by omega]
  | some l2 =>
    have hw2x : winOK l2 = true := hwin2
    obtain ⟨s2, e2, rfl, hs2a, hs2b, he2a, he2b, hlt2⟩ := winOK_shape _ hw2x
    cases w3 with
    | none =>
      simp +decide [applianceOfJson, dumpKvs, dictGet, intField, optWindowField,
        windowError, asStr, asBool, optListJ, houf, hineg, higt, hfxb, hnf1, hnf2,
        asInt_intJ nu (by omega), asInt_intJ po (by omega), asInt_intJ ft (by omega),
        asInt_intJ nw (by omega), asInt_intJ wd (by omega), asInt_intJ fc (by omega),
        asIntList_win s1 e1 (by omega) (by omega),
        asIntList_win s2 e2 (by omega) (by omega)]
      simp [show ¬(nu < 1 ∨ 100 < nu) by omega, show ¬(po < 1 ∨ 10000 < po) by omega,
        show ¬(ft < 1 ∨ 1440 < ft) by omega, show ¬(nw < 1 ∨ 3 < nw) by omega,
        show ¬(s1 < 0 ∨ 1440 < s1) by omega, show ¬(e1 < 0 ∨ 1440 < e1) by omega,
        show ¬(e1 ≤ s1) by omega, show ¬(fc < 1) by omega, show ¬(ft < fc) by omega,
        show ¬(wd < 0 ∨ 2 < wd) by omega, hfx,
        show ¬(s2 < 0 ∨ 1440 < s2) by omega, show ¬(e2 < 0 ∨ 1440 < e2) by omega,
        show ¬(e2 ≤ s2) by omega]
    | some l3 =>
      have hw3x : winOK l3 = true := hwin3
      obtain ⟨s3, e3, rfl, hs3a, hs3b, he3a, he3b, hlt3⟩ := winOK_shape _ hw3x
      simp +decide [applianceOfJson, dumpKvs, dictGet, intField, optWindowField,
        windowError, asStr, asBool, optListJ, houf, hineg, higt, hfxb, hnf1, hnf2,
        asInt_intJ nu (by omega), asInt_intJ po (by omega), asInt_intJ ft (by omega),
        asInt_intJ nw (by omega), asInt_intJ wd (by omega), asInt_intJ fc (by omega),
        asIntList_win s1 e1 (by omega) (by omega),
        asIntList_win s2 e2 (by omega) (by omega),
        asIntList_win s3 e3 (by omega) (by omega)]
      simp [show ¬(nu < 1 ∨ 100 < nu) by omega, show ¬(po < 1 ∨ 10000 < po) by omega,
        show ¬(ft < 1 ∨ 1440 < ft) by omega, show ¬(nw < 1 ∨ 3 < nw) by omega,
        show ¬(s1 < 0 ∨ 1440 < s1) by omega, show ¬(e1 < 0 ∨ 1440 < e1) by omega,
        show ¬(e1 ≤ s1) by omega, show ¬(fc < 1) by omega, show ¬(ft < fc) by omega,
        show ¬(wd < 0 ∨ 2 < wd) by omega, hfx,
        show ¬(s2 < 0 ∨ 1440 < s2) by omega, show ¬(e2 < 0 ∨ 1440 < e2) by omega,
        show ¬(e2 ≤ s2) by omega,
        show ¬(s3 < 0 ∨ 1440 < s3) by omega, show ¬(e3 < 0 ∨ 1440 < e3) by omega,
        show ¬(e3 ≤ s3) by omega]

theorem splitFirstSub_self (p0 : Char) (pp X : List Char) :
    splitFirstSub (p0 :: pp) ((p0 :: pp) ++ X) = some ([], X) := by
  rw [show ((p0 :: pp) ++ X) = p0 :: (pp ++ X) from rfl]
  rw [splitFirstSub]
  rw [show (p0 :: (pp ++ X)) = (p0 :: pp) ++ X from rfl, startsWithL_prefix]
  simp only [if_true]
  rw [List.drop_left]

theorem splitFirstSub_endMarker (xs : List Char) (h : ∀ c ∈ xs, c ≠ 'J') :
    splitFirstSub endMarker (xs ++ endMarker) = some (xs, []) := by
  induction xs with
  | nil =>
    rw [List.nil_append]
    have := splitFirstSub_self '[' ("JSON_DATA_END]".toList) []
    simpa using this
  | cons c t ih =>
    have hne : startsWithL endMarker (c :: (t ++ endMarker)) = false := by
      rw [show endMarker = '[' :: ('J' :: "SON_DATA_END]".toList) from rfl]
      rw [startsWithL]
      cases t with
      | nil =>
        rw [List.nil_append]
        rw [startsWithL_ne_head 'J' '[' _ _ (by decide)]
        simp
      | cons d t2 =>
        rw [show ((d :: t2) ++ ('[' :: ('J' :: "SON_DATA_END]".toList)))
            = d :: (t2 ++ ('[' :: ('J' :: "SON_DATA_END]".toList))) from rfl]
        rw [startsWithL_ne_head 'J' d _ _
          (fun hx => h d (List.mem_cons_of_mem _ (List.mem_cons_self _ _)) hx.symm)]
        simp
    rw [show ((c :: t) ++ endMarker) = c :: (t ++ endMarker) from rfl]
    rw [splitFirstSub, hne]
    simp only [Bool.false_eq_true, if_false]
    rw [ih (fun d hd => h d (List.mem_cons_of_mem _ hd))]
    rfl

theorem findAllBetweenF_nil : ∀ f, findAllBetweenF f [] = [] := by
  intro f
  cases f <;> rfl

theorem intJ_nonneg (n : Int) (h : 0 ≤ n) : intJ n = .num ⟨false, n.natAbs, none⟩ := by
  simp [intJ]
  omega

theorem printStr_chars_safeName (s : String) (hs : ∀ c ∈ s.data, safeNameChar c = true) :
    ∀ c ∈ printStr s, dumpChar c = true := by
  intro c hc
  rw [printStr_safe s (fun c hc => safeNameChar_strSafe c (hs c hc))] at hc
  rcases List.mem_cons.mp hc with hc | hc
  · rw [hc]; decide
  · rcases List.mem_append.mp hc with hc | hc
    · exact safeNameChar_dumpChar c (hs c hc)
    · rw [List.mem_singleton.mp hc]; decide

theorem printStr_nc_safeName (s : String) (hs : ∀ c ∈ s.data, safeNameChar c = true) :
    ∀ c ∈ printStr s, c ≠ ',' := by
  intro c hc
  rw [printStr_safe s (fun c hc => safeNameChar_strSafe c (hs c hc))] at hc
  rcases List.mem_cons.mp hc with hc | hc
  · rw [hc]; decide
  · rcases List.mem_append.mp hc with hc | hc
    · exact safeNameChar_ne_comma c (hs c hc)
    · rw [List.mem_singleton.mp hc]; decide

theorem memberOK_str (k s : String)
    (hk1 : ∀ c ∈ k.data, strSafe c = true)
    (hk2 : ∀ c ∈ printStr k, dumpChar c = true)
    (hk3 : ∀ c ∈ printStr k, c ≠ ',')
    (hs : ∀ c ∈ s.data, safeNameChar c = true) :
    MemberOK (k, .str s) := by
  refine ⟨hk1, hk2, hk3, ?_, ?_, ?_⟩
  · exact valok_str s (fun c hc => safeNameChar_strSafe c (hs c hc))
  · exact tcv_of_nc _ (printStr_nc_safeName s hs)
  · exact printStr_chars_safeName s hs

theorem printV_int_chars (n : Nat) :
    ∀ c ∈ printV (.num ⟨false, n, none⟩), dumpChar c = true := by
  intro c hc
  rw [show printV (.num ⟨false, n, none⟩) = natPrint n by simp [printV, printJNum]] at hc
  exact digitChar_dumpChar c (natPrint_all_digit n c hc)

theorem memberOK_int (k : String)
    (hk1 : ∀ c ∈ k.data, strSafe c = true)
    (hk2 : ∀ c ∈ printStr k, dumpChar c = true)
    (hk3 : ∀ c ∈ printStr k, c ≠ ',')
    (n : Int) (hn : 0 ≤ n) :
    MemberOK (k, intJ n) := by
  rw [intJ_nonneg n hn]
  exact ⟨hk1, hk2, hk3, valok_int n.natAbs, tcv_of_nc _ (printV_int_nc n.natAbs),
    printV_int_chars n.natAbs⟩

theorem memberOK_arr2 (k : String)
    (hk1 : ∀ c ∈ k.data, strSafe c = true)
    (hk2 : ∀ c ∈ printStr k, dumpChar c = true)
    (hk3 : ∀ c ∈ printStr k, c ≠ ',')
    (s e : Int) (hs : 0 ≤ s) (he : 0 ≤ e) :
    MemberOK (k, .arr ([s, e].map intJ)) := by
  have hmap : ([s, e].map intJ)
      = [.num ⟨false, s.natAbs, none⟩, .num ⟨false, e.natAbs, none⟩] := by
    simp [intJ_nonneg s hs, intJ_nonneg e he]
  rw [hmap]
  refine ⟨hk1, hk2, hk3, valok_arr2 s.natAbs e.natAbs, tcv_arr2 s.natAbs e.natAbs, ?_⟩
  intro c hc
  rw [show printV (.arr [.num ⟨false, s.natAbs, none⟩, .num ⟨false, e.natAbs, none⟩])
      = '[' :: (printV (.num ⟨false, s.natAbs, none⟩) ++
          (',' :: ' ' :: (printV (.num ⟨false, e.natAbs, none⟩) ++ [']'])))
    by simp [printV, printItemsL]] at hc
  rcases List.mem_cons.mp hc with hc | hc
  · rw [hc]; decide
  · rcases List.mem_append.mp hc with hc | hc
    · exact printV_int_chars s.natAbs c hc
    · rcases List.mem_cons.mp hc with hc | hc
      · rw [hc]; decide
      · rcases List.mem_cons.mp hc with hc | hc
        · rw [hc]; decide
        · rcases List.mem_append.mp hc with hc | hc
          · exact printV_int_chars e.natAbs c hc
          · rw [List.mem_singleton.mp hc]; decide

theorem memberOK_null (k : String)
    (hk1 : ∀ c ∈ k.data, strSafe c = true)
    (hk2 : ∀ c ∈ printStr k, dumpChar c = true)
    (hk3 : ∀ c ∈ printStr k, c ≠ ',') :
    MemberOK (k, .null) := by
  refine ⟨hk1, hk2, hk3, valok_null, tcv_of_nc _ ?_, ?_⟩
  · show ∀ c ∈ printV .null, c ≠ ','
    decide
  · show ∀ c ∈ printV .null, dumpChar c = true
    decide

theorem memberOK_bool (k : String)
    (hk1 : ∀ c ∈ k.data, strSafe c = true)
    (hk2 : ∀ c ∈ printStr k, dumpChar c = true)
    (hk3 : ∀ c ∈ printStr k, c ≠ ',') (b : Bool) :
    MemberOK (k, .bool b) := by
  cases b with
  | true =>
    refine ⟨hk1, hk2, hk3, valok_bool true, tcv_of_nc _ ?_, ?_⟩
    · show ∀ c ∈ printV (.bool true), c ≠ ','
      decide
    · show ∀ c ∈ printV (.bool true), dumpChar c = true
      decide
  | false =>
    refine ⟨hk1, hk2, hk3, valok_bool false, tcv_of_nc _ ?_, ?_⟩
    · show ∀ c ∈ printV (.bool false), c ≠ ','
      decide
    · show ∀ c ∈ printV (.bool false), dumpChar c = true
      decide

theorem memberOK_num_wf (k : String)
    (hk1 : ∀ c ∈ k.data, strSafe c = true)
    (hk2 : ∀ c ∈ printStr k, dumpChar c = true)
    (hk3 : ∀ c ∈ printStr k, c ≠ ',')
    (j : JNum) (hwf : jnumWF j = true) :
    MemberOK (k, .num j) := by
  obtain ⟨neg, ip, fp⟩ := j
  rw [jnumWF, Bool.and_eq_true, Bool.not_eq_true'] at hwf
  obtain ⟨hneg, hfp⟩ := hwf
  subst hneg
  cases fp with
  | none =>
    exact ⟨hk1, hk2, hk3, valok_int ip, tcv_of_nc _ (printV_int_nc ip),
      printV_int_chars ip⟩
  | some ds =>
    simp only [Bool.and_eq_true, Bool.not_eq_true',
      List.all_eq_true, decide_eq_true_eq] at hfp
    obtain ⟨hne0, hlt⟩ := hfp
    have hne : ds ≠ [] := by
      intro hx
      rw [hx] at hne0
      simp at hne0
    refine ⟨hk1, hk2, hk3, valok_dec ip ds hne hlt, tcv_of_nc _ (printV_dec_nc ip ds hlt), ?_⟩
    intro c hc
    rw [show printV (.num ⟨false, ip, some ds⟩) = natPrint ip ++ ('.' :: digitChars ds)
      by simp [printV, printJNum, digitChars]] at hc
    rcases List.mem_append.mp hc with hc | hc
    · exact digitChar_dumpChar c (natPrint_all_digit ip c hc)
    · rcases List.mem_cons.mp hc with hc | hc
      · rw [hc]; decide
      · exact digitChar_dumpChar c (digitChars_all_digit ds hlt c hc)

theorem dump_memberOK (a : ApplianceExtracted) (h : validR a = true) :
    ∀ kv ∈ dumpKvs a, MemberOK kv := by
  rw [validR, Bool.and_eq_true] at h
  obtain ⟨hm, hsafe⟩ := h
  have hsafe2 : ∀ c ∈ a.name.data, safeNameChar c = true := by
    rw [List.all_eq_true] at hsafe
    exact hsafe
  simp only [modelInvR, Bool.and_eq_true, decide_eq_true_eq, Bool.not_eq_true',
    Bool.or_eq_true, beq_iff_eq] at hm
  obtain ⟨⟨⟨⟨⟨⟨⟨⟨⟨⟨⟨⟨hn1, hn2⟩, hb1, hb2⟩, hp1, hp2⟩, ht1, ht2⟩, hv1, hv2⟩,
    hwin1⟩, hwin2⟩, hwin3⟩, hc1, hc2⟩, hfx⟩, ⟨houwf, hineg⟩, higt⟩, hd1, hd2⟩ := hm
  intro kv hkv
  simp only [dumpKvs, List.mem_cons, List.not_mem_nil, or_false] at hkv
  rcases hkv with hkv | hkv | hkv | hkv | hkv | hkv | hkv | hkv | hkv | hkv | hkv | hkv | hkv <;>
    rw [hkv]
  · exact memberOK_str "name" a.name (by decide) (by decide) (by decide) hsafe2
  · exact memberOK_int "number" (by decide) (by decide) (by decide) a.number (by omega)
  · exact memberOK_int "power" (by decide) (by decide) (by decide) a.power (by omega)
  · exact memberOK_int "func_time" (by decide) (by decide) (by decide) a.func_time (by omega)
  · exact memberOK_int "num_windows" (by decide) (by decide) (by decide) a.num_windows (by omega)
  · obtain ⟨s1, e1, hw1, hs1a, _, he1a, _, _⟩ := winOK_shape _ hwin1
    rw [hw1]
    exact memberOK_arr2 "window_1" (by decide) (by decide) (by decide) s1 e1 hs1a he1a
  · cases hw2 : a.window_2 with
    | none =>
      rw [show optListJ none = .null from rfl]
      exact memberOK_null "window_2" (by decide) (by decide) (by decide)
    | some l2 =>
      rw [hw2] at hwin2
      obtain ⟨s2, e2, hl2, hs2a, _, he2a, _, _⟩ := winOK_shape _ hwin2
      rw [hl2]
      rw [show optListJ (some [s2, e2]) = .arr ([s2, e2].map intJ) from rfl]
      exact memberOK_arr2 "window_2" (by decide) (by decide) (by decide) s2 e2 hs2a he2a
  · cases hw3 : a.window_3 with
    | none =>
      rw [show optListJ none = .null from rfl]
      exact memberOK_null "window_3" (by decide) (by decide) (by decide)
    | some l3 =>
      rw [hw3] at hwin3
      obtain ⟨s3, e3, hl3, hs3a, _, he3a, _, _⟩ := winOK_shape _ hwin3
      rw [hl3]
      rw [show optListJ (some [s3, e3]) = .arr ([s3, e3].map intJ) from rfl]
      exact memberOK_arr2 "window_3" (by decide) (by decide) (by decide) s3 e3 hs3a he3a
  · exact memberOK_int "func_cycle" (by decide) (by decide) (by decide) a.func_cycle (by omega)
  · rcases hfx with hfx | hfx <;> rw [hfx]
    · exact memberOK_str "fixed" "yes" (by decide) (by decide) (by decide) (by decide)
    · exact memberOK_str "fixed" "no" (by decide) (by decide) (by decide) (by decide)
  · exact memberOK_num_wf "occasional_use" (by decide) (by decide) (by decide)
      a.occasional_use houwf
  · exact memberOK_int "wd_we_type" (by decide) (by decide) (by decide) a.wd_we_type (by omega)
  · exact memberOK_bool "data_complete" (by decide) (by decide) (by decide) a.data_complete

/-- An appliance record serialized as the prompt protocol requires: the
dumped JSON object between the start and end markers. -/
def serializeBlock (a : ApplianceExtracted) : String :=
  String.mk (startMarker ++ (printV (.obj (dumpKvs a)) ++ endMarker))

/-- The `name` entry of an extracted record (projection used to compare an
extracted record with the serialized one). -/
def nameOf : Json → Option String
  | .obj kvs => (dictGet kvs "name").bind asStr
  | _ => none

theorem extract_roundtrip (a : ApplianceExtracted) (h : validR a = true) :
    extract_all_json (serializeBlock a) = [.obj (dumpKvs a)] := by
  have hmem := dump_memberOK a h
  have hmod : modelInvR a = true := by
    rw [validR, Bool.and_eq_true] at h
    exact h.1
  have hch : ∀ c ∈ printV (.obj (dumpKvs a)), dumpChar c = true := by
    intro c hc
    rw [show printV (.obj (dumpKvs a))
        = lbrace :: (printMembersL (dumpKvs a) ++ [rbrace]) by simp [printV]] at hc
    rcases List.mem_cons.mp hc with hc | hc
    · rw [hc]; decide
    · rcases List.mem_append.mp hc with hc | hc
      · exact ch_membersL _ hmem c hc
      · rw [List.mem_singleton.mp hc]; decide
  have hJ : ∀ c ∈ printV (.obj (dumpKvs a)), c ≠ 'J' :=
    fun c hc => (dumpChar_not_tfn c (hch c hc)).2.2.2.2
  have hclean : cleanL (printV (.obj (dumpKvs a))) = printV (.obj (dumpKvs a)) :=
    cleanL_print_obj _ _ _ rfl hmem
  have hloads : json_loads (printV (.obj (dumpKvs a))) = some (.obj (dumpKvs a)) :=
    json_loads_print_obj _ _ _ _ rfl
      (fun kv hkv => ⟨(hmem kv hkv).1, (hmem kv hkv).2.2.2.1⟩)
  have hparse : parseBlock (printV (.obj (dumpKvs a))) = some (.obj (dumpKvs a)) := by
    unfold parseBlock
    rw [hclean, hloads]
    simp [pydanticStep, applianceOfJson_dump a hmod]
  have hms : findAllBetween (startMarker ++ (printV (.obj (dumpKvs a)) ++ endMarker))
      = [printV (.obj (dumpKvs a))] := by
    unfold findAllBetween
    rw [findAllBetweenF]
    rw [show startMarker = '[' :: "JSON_DATA_START]".toList from rfl]
    rw [splitFirstSub_self]
    simp only []
    rw [splitFirstSub_endMarker _ hJ]
    simp only []
    rw [findAllBetweenF_nil]
  unfold extract_all_json serializeBlock
  rw [show (String.mk (startMarker ++ (printV (.obj (dumpKvs a)) ++ endMarker))).toList
      = startMarker ++ (printV (.obj (dumpKvs a)) ++ endMarker) from rfl]
  simp only []
  rw [if_neg (by rw [show startMarker = '[' :: "JSON_DATA_START]".toList from rfl]; simp)]
  rw [hms]
  simp [hparse]

/-- C5, amended: for every record satisfying the data-model invariants whose
name uses only lowercase letters, digits and spaces (characters the repair
pipeline cannot rewrite), serializing between the markers and running the
full extractor returns exactly the dumped object of the record, and
re-validating that object reproduces the record field for field. -/
theorem c5_amended_roundtrip (a : ApplianceExtracted) (h : validR a = true) :
    extract_all_json (serializeBlock a) = [.obj (dumpKvs a)] ∧
      applianceOfJson (dumpKvs a) = .ok a :=
  ⟨extract_roundtrip a h,
    applianceOfJson_dump a (by rw [validR, Bool.and_eq_true] at h; exact h.1)⟩

def c5wit : ApplianceExtracted :=
  ⟨"fan", 1, 50, 120, 1, [540, 600], none, none, 10, "no",
    ⟨false, 1, some [0]⟩, 2, true⟩

/-- Witness for C5's amended theorem on a concrete valid record. -/
theorem c5_amended_roundtrip_witness :
    validR c5wit = true ∧
      (extract_all_json (serializeBlock c5wit) = [.obj (dumpKvs c5wit)] ∧
        applianceOfJson (dumpKvs c5wit) = .ok c5wit) :=
  ⟨by decide, c5_amended_roundtrip c5wit (by decide)⟩

def c5cex : ApplianceExtracted :=
  ⟨"True", 1, 100, 60, 1, [540, 600], none, none, 1, "no",
    ⟨false, 1, some [0]⟩, 2, true⟩

/-- C5, counterexample: the record named `True` satisfies every invariant of
the data model, yet the round trip renames it: `clean_json_string` rewrites
the word `True` to `true` inside the JSON string literal, so the extractor
returns a record whose name is `true`, not `True`. -/
theorem c5_counterexample :
    modelInvR c5cex = true ∧
      (extract_all_json (serializeBlock c5cex)).map nameOf = [some "true"] ∧
      c5cex.name ≠ "true" := by
  refine ⟨by decide, ?_, by decide⟩
  rfl

end SurveyPipeline
